import Mathlib

/-!
# String command handlers of `server/command_string.go`

A shallow embedding of the string-type command handlers (`setCommand`,
`setexCommand`, `msetCommand`, `setnxCommand`, `incrCommand`, `incrbyCommand`,
`decrCommand`, `decrbyCommand`, `incrGenericCommand`) together with the pieces
of the Go runtime they rely on (`strconv.ParseInt`, `strings.ToLower`, 64-bit
integer arithmetic), followed by theorems about them.

The storage engine (`store.InitString(..).Set/MSet/Incr`) and the error table
(`terror`) live in packages that are not part of the source file. The handlers
are therefore parametric in a `StringEngine`; every engine call is recorded in
a call log so that statements about which engine operation a handler issues,
and with which arguments, are ordinary equalities.
-/

namespace Titea

/-! ## Go runtime -/

/-- A Go byte (`0..255`), kept as a natural number. -/
abbrev Byte := Nat

/-- A Go `[]byte` / `string`: a sequence of bytes. -/
abbrev Bytes := List Nat

/-- The bytes of an ASCII literal. -/
def ascii (s : String) : Bytes := s.toList.map Char.toNat

/-- Reinterpret an integer as a Go `int64` (two's complement wrap-around). -/
def wrapInt64 (x : Int) : Int := (x + 2 ^ 63) % 2 ^ 64 - 2 ^ 63

/-- Go `uint64(x)` for an `int64` value `x`, and truncation of unsigned results. -/
def toUint64 (x : Int) : Nat := (x % 2 ^ 64).toNat

/-- Go `a * b` on `uint64`. -/
def mulUint64 (a b : Nat) : Nat := (a * b) % 2 ^ 64

/-- Go `a + b` on `int64`. -/
def addInt64 (a b : Int) : Int := wrapInt64 (a + b)

/-- Go `a * b` on `int64`. -/
def mulInt64 (a b : Int) : Int := wrapInt64 (a * b)

/-- Go `a / b` on `int64` for a positive constant `b`: truncation toward zero. -/
def divInt64 (a b : Int) : Int := Int.tdiv a b

/-- One byte of `strings.ToLower`: `A`..`Z` are mapped to `a`..`z`. The result is
only ever compared with the ASCII words `ex`, `px`, `nx`, `xx`; no rune outside
ASCII lower-cases to one of the letters `e`, `p`, `n`, `x`, so the comparison
agrees with the one made on Go's full Unicode lower-casing. -/
def toLowerByte (b : Nat) : Nat := if 65 ≤ b ∧ b ≤ 90 then b + 32 else b

/-- Go `strings.ToLower` (see `toLowerByte`). -/
def ToLower (s : Bytes) : Bytes := s.map toLowerByte

/-- The value of a decimal digit byte, if it is one. -/
def digitVal (b : Nat) : Option Nat := if 48 ≤ b ∧ b ≤ 57 then some (b - 48) else none

/-- The digit loop of `strconv.ParseUint` in base 10, without the range check:
`acc` is the value read so far; any non-digit byte is a syntax error. -/
def parseDigits : Bytes → Nat → Option Nat
  | [], acc => some acc
  | b :: rest, acc =>
    match digitVal b with
    | none => none
    | some d => parseDigits rest (acc * 10 + d)

/-- Go `strconv.ParseInt(s, 10, 64)`; `none` stands for a non-nil `err`
(syntax error or value out of the `int64` range). An empty string, or a sign
with no digit after it, is a syntax error. -/
def ParseInt (s : Bytes) : Option Int :=
  match s with
  | [] => none
  | b :: rest =>
    let neg := b = 45
    let body := if b = 43 ∨ b = 45 then rest else s
    match body with
    | [] => none
    | _ :: _ =>
      match parseDigits body 0 with
      | none => none
      | some un =>
        if neg then
          if un > 2 ^ 63 then none else some (-(un : Int))
        else
          if un ≥ 2 ^ 63 then none else some (un : Int)

/-- The two readings the handlers take from one `time.Now()` value: the result
of `.Unix()` (seconds) and of `.UnixNano()` (nanoseconds), both `int64`. -/
structure Now where
  unix : Int
  unixNano : Int
  deriving DecidableEq, Repr

/-- The wall clock: the reading returned by the `n`-th call of `time.Now()` made
while one command runs. -/
abbrev Clock := Nat → Now

/-- A Go `map[string][]byte`, kept as a list of bindings with distinct keys. -/
abbrev GoMap := List (Bytes × Bytes)

/-- Go `m[k] = v`: overwrite the binding of `k` if there is one, add it otherwise. -/
def GoMap.assign : GoMap → Bytes → Bytes → GoMap
  | [], k, v => [(k, v)]
  | (k', v') :: m, k, v => if k' = k then (k, v) :: m else (k', v') :: GoMap.assign m k v

/-- Go `m[k]` with the presence flag. -/
def GoMap.get : GoMap → Bytes → Option Bytes
  | [], _ => none
  | (k', v') :: m, k => if k' = k then some v' else GoMap.get m k

/-- The keys of a map. -/
def GoMap.keys (m : GoMap) : List Bytes := m.map Prod.fst

/-! ## Errors, replies, engine interface -/

/-- Modelled from the spec: the `terror` package is not part of the source file.
`ErrCmdParams` is the one error value the handlers name themselves; the other
constructors are the error kinds listed in the error-handling section of the
spec, which only the engine produces. -/
inductive Terror where
  | ErrCmdParams
  | TypeMismatch
  | ConditionFailed
  | FormatError
  | Overflow
  | Conflict
  | BackendFatal
  deriving DecidableEq, Repr

/-- What a handler hands to the response writer (`c.writer.Error`, `.Null`,
`.String`, `.Integer`). -/
inductive Reply where
  | Error (e : Terror)
  | Null
  | String (s : Bytes)
  | Integer (n : Int)
  deriving DecidableEq, Repr

/-- How a handler run ends: it writes a reply, or the Go runtime panics on an
index that is out of range. -/
inductive Outcome where
  | reply (r : Reply)
  | panicIndex
  deriving DecidableEq, Repr

/-- One call of a string-engine operation with its arguments. -/
inductive EngineCall where
  | Set (key value : Bytes) (expireAt : Nat) (isNX isXX : Bool)
  | MSet (keyValues : GoMap)
  | Incr (key : Bytes) (step : Int)
  deriving DecidableEq, Repr

/-- The operations of `store.InitString(c.environ, c.store)` that the write
handlers use, over an engine state `σ`. Each returns the Go `err` (`none` is
`nil`) and the state after the call. -/
structure StringEngine (σ : Type) where
  Set : σ → Bytes → Bytes → Nat → Bool → Bool → Option Terror × σ
  MSet : σ → GoMap → Option Terror × σ
  Incr : σ → Bytes → Int → Except Terror Int × σ

/-- The state a handler runs in: the engine state and the log of engine calls
made so far. -/
structure World (σ : Type) where
  store : σ
  calls : List EngineCall

/-- The client of one command. Only `args` is kept: `argc` is the number of
arguments. -/
structure Client where
  args : List Bytes

/-- The field `c.argc`: the argument count. -/
def Client.argc (c : Client) : Nat := c.args.length

/-- Constant `terror.ErrCmdParams` as a reply. -/
def paramError : Outcome := Outcome.reply (Reply.Error Terror.ErrCmdParams)

/-- Reply `c.writer.String("OK")`. -/
def replyOK : Outcome := Outcome.reply (Reply.String (ascii "OK"))

/-- Call `s.Set(..)` and log it. -/
def callSet {σ : Type} (E : StringEngine σ) (w : World σ) (key value : Bytes)
    (expireAt : Nat) (isNX isXX : Bool) : Option Terror × World σ :=
  let r := E.Set w.store key value expireAt isNX isXX
  (r.1, { store := r.2, calls := w.calls ++ [EngineCall.Set key value expireAt isNX isXX] })

/-- Call `s.MSet(..)` and log it. -/
def callMSet {σ : Type} (E : StringEngine σ) (w : World σ) (kv : GoMap) :
    Option Terror × World σ :=
  let r := E.MSet w.store kv
  (r.1, { store := r.2, calls := w.calls ++ [EngineCall.MSet kv] })

/-- Call `s.Incr(..)` and log it. -/
def callIncr {σ : Type} (E : StringEngine σ) (w : World σ) (key : Bytes) (step : Int) :
    Except Terror Int × World σ :=
  let r := E.Incr w.store key step
  (r.1, { store := r.2, calls := w.calls ++ [EngineCall.Incr key step] })

/-! ## Handlers -/

/-- The local variables of `setCommand` while the option loop runs, with the
number of `time.Now()` calls made so far. -/
structure SetOpts where
  expireAt : Nat
  isNX : Bool
  isXX : Bool
  tick : Nat
  deriving DecidableEq, Repr

/-- Expression `uint64(sec+int64(time.Now().Unix())) * 1000`. -/
def expireEX (now : Now) (sec : Int) : Nat :=
  mulUint64 (toUint64 (addInt64 sec now.unix)) 1000

/-- Expression `uint64(msec + (time.Now().UnixNano() / 1000 / 1000))`. -/
def expirePX (now : Now) (msec : Int) : Nat :=
  toUint64 (addInt64 msec (divInt64 (divInt64 now.unixNano 1000) 1000))

/-- The loop `for i, p := range c.args[2:]` of `setCommand`: the first argument
is what is left of `c.args[2:]`, the second the index `i`. It ends with the
final locals, or leaves the handler early with an outcome (a parameter-error
reply, or the panic of `c.args[i+3]` when that index is out of range). -/
def setOptions (c : Client) (clock : Clock) : List Bytes → Nat → SetOpts → Except Outcome SetOpts
  | [], _, st => Except.ok st
  | p :: rest, i, st =>
    let con := ToLower p
    if con = ascii "ex" then
      match c.args[i + 3]? with
      | none => Except.error Outcome.panicIndex
      | some a =>
        match ParseInt a with
        | none => Except.error paramError
        | some sec =>
          if sec < 0 then Except.error paramError
          else setOptions c clock rest (i + 1)
            { st with expireAt := expireEX (clock st.tick) sec, tick := st.tick + 1 }
    else if con = ascii "px" then
      match c.args[i + 3]? with
      | none => Except.error Outcome.panicIndex
      | some a =>
        match ParseInt a with
        | none => Except.error paramError
        | some msec =>
          if msec < 0 then Except.error paramError
          else setOptions c clock rest (i + 1)
            { st with expireAt := expirePX (clock st.tick) msec, tick := st.tick + 1 }
    else if con = ascii "nx" then
      setOptions c clock rest (i + 1) { st with isNX := true }
    else if con = ascii "xx" then
      setOptions c clock rest (i + 1) { st with isXX := true }
    else
      setOptions c clock rest (i + 1) st

/-- The locals of `setCommand` before the loop: `expireAt = 0`, no NX, no XX. -/
def SetOpts.init : SetOpts := { expireAt := 0, isNX := false, isXX := false, tick := 0 }

/-- The part of `setCommand` before the engine is reached (lines 38-69). -/
def setParse (c : Client) (clock : Clock) : Except Outcome SetOpts :=
  if c.argc > 2 then setOptions c clock (c.args.drop 2) 0 SetOpts.init
  else Except.ok SetOpts.init

/-- Handler `setCommand`. -/
def setCommand {σ : Type} (E : StringEngine σ) (clock : Clock) (c : Client) (w : World σ) :
    Outcome × World σ :=
  match setParse c clock with
  | Except.error o => (o, w)
  | Except.ok st =>
    match c.args[0]?, c.args[1]? with
    | some key, some value =>
      let r := callSet E w key value st.expireAt st.isNX st.isXX
      match r.1 with
      | some _ => (Outcome.reply Reply.Null, r.2)
      | none => (replyOK, r.2)
    | _, _ => (Outcome.panicIndex, w)

/-- Handler `setexCommand`. -/
def setexCommand {σ : Type} (E : StringEngine σ) (clock : Clock) (c : Client) (w : World σ) :
    Outcome × World σ :=
  match c.args[1]? with
  | none => (Outcome.panicIndex, w)
  | some a1 =>
    match ParseInt a1 with
    | none => (paramError, w)
    | some sec =>
      if sec < 0 then (paramError, w)
      else
        let expireAt := expireEX (clock 0) sec
        match c.args[0]? with
        | none => (Outcome.panicIndex, w)
        | some key =>
          let r := callSet E w key a1 expireAt false false
          match r.1 with
          | some err => (Outcome.reply (Reply.Error err), r.2)
          | none => (replyOK, r.2)

/-- The loop `for i := 0; i < c.argc; i += 2` of `msetCommand` over what is left
of `c.args`; `none` is the panic of `c.args[i+1]` on a dangling key. -/
def msetLoop : List Bytes → GoMap → Option GoMap
  | [], m => some m
  | [_], _ => none
  | k :: v :: rest, m => msetLoop rest (GoMap.assign m k v)

/-- Handler `msetCommand`. -/
def msetCommand {σ : Type} (E : StringEngine σ) (c : Client) (w : World σ) :
    Outcome × World σ :=
  if c.argc % 2 ≠ 0 then (paramError, w)
  else
    match msetLoop c.args [] with
    | none => (Outcome.panicIndex, w)
    | some keyValues =>
      let r := callMSet E w keyValues
      match r.1 with
      | some err => (Outcome.reply (Reply.Error err), r.2)
      | none => (replyOK, r.2)

/-- Handler `setnxCommand`. -/
def setnxCommand {σ : Type} (E : StringEngine σ) (c : Client) (w : World σ) :
    Outcome × World σ :=
  match c.args[0]?, c.args[1]? with
  | some key, some value =>
    let r := callSet E w key value 0 true false
    match r.1 with
    | some _ => (Outcome.reply (Reply.Integer 0), r.2)
    | none => (Outcome.reply (Reply.Integer 1), r.2)
  | _, _ => (Outcome.panicIndex, w)

/-- Handler `incrGenericCommand`. -/
def incrGenericCommand {σ : Type} (E : StringEngine σ) (c : Client) (step : Int)
    (w : World σ) : Outcome × World σ :=
  match c.args[0]? with
  | none => (Outcome.panicIndex, w)
  | some key =>
    let r := callIncr E w key step
    match r.1 with
    | Except.error err => (Outcome.reply (Reply.Error err), r.2)
    | Except.ok num => (Outcome.reply (Reply.Integer (wrapInt64 num)), r.2)

/-- Handler `incrCommand`. -/
def incrCommand {σ : Type} (E : StringEngine σ) (c : Client) (w : World σ) :
    Outcome × World σ :=
  incrGenericCommand E c 1 w

/-- Handler `incrbyCommand`. -/
def incrbyCommand {σ : Type} (E : StringEngine σ) (c : Client) (w : World σ) :
    Outcome × World σ :=
  match c.args[1]? with
  | none => (Outcome.panicIndex, w)
  | some a1 =>
    match ParseInt a1 with
    | none => (paramError, w)
    | some step => incrGenericCommand E c step w

/-- Handler `decrCommand`. -/
def decrCommand {σ : Type} (E : StringEngine σ) (c : Client) (w : World σ) :
    Outcome × World σ :=
  incrGenericCommand E c (-1) w

/-- Handler `decrbyCommand`. -/
def decrbyCommand {σ : Type} (E : StringEngine σ) (c : Client) (w : World σ) :
    Outcome × World σ :=
  match c.args[1]? with
  | none => (Outcome.panicIndex, w)
  | some a1 =>
    match ParseInt a1 with
    | none => (paramError, w)
    | some step => incrGenericCommand E c (mulInt64 step (-1)) w

/-! ## The string engine, as the spec describes it -/

/-- Modelled from the spec: the type tag of a Meta-Record (data-model section);
the `store` package is not part of the source file. -/
inductive TypeTag where
  | String
  | List
  | Hash
  | Set
  | SortedSet
  deriving DecidableEq, Repr

/-- Modelled from the spec: the Meta-Record stored against a logical key (type
tag, absolute expiry in epoch milliseconds with `0` for "no expiration", inline
value); the `store` package is not part of the source file. -/
structure MetaRecord where
  type_tag : TypeTag
  expire_at_ms : Nat
  inline_value : Bytes
  deriving DecidableEq, Repr

/-- Modelled from the spec: the backend as the engine sees it inside one
transaction, at most one Meta-Record per logical key, together with the current
time in epoch milliseconds; the `store` package is not part of the source file. -/
structure SpecStore where
  now : Nat
  recs : List (Bytes × MetaRecord)
  deriving DecidableEq, Repr

/-- Modelled from the spec: the three results of the Expiration and Type Guard. -/
inductive Resolved where
  | Absent
  | Live (record : MetaRecord)
  | WrongType (tag : TypeTag)
  deriving DecidableEq, Repr

/-- Modelled from the spec: `Txn.Get(key)` of the transaction executor. -/
def SpecStore.find (s : SpecStore) (key : Bytes) : Option MetaRecord :=
  match s.recs.find? (fun p => p.1 = key) with
  | none => none
  | some p => some p.2

/-- Modelled from the spec: `Txn.Put(key, blob)` of the transaction executor. -/
def SpecStore.put (s : SpecStore) (key : Bytes) (r : MetaRecord) : SpecStore :=
  { s with recs := (key, r) :: s.recs.filter (fun p => p.1 ≠ key) }

/-- Modelled from the spec: the guard `resolve` of the Expiration and Type Guard
(invariants I2 and I3): a missing record, or one with `expire_at_ms ≠ 0` and
`expire_at_ms < now`, is absent; a live record with another tag than String is
a wrong type. -/
def specResolve (now : Nat) (r : Option MetaRecord) : Resolved :=
  match r with
  | none => Resolved.Absent
  | some m =>
    if m.expire_at_ms ≠ 0 ∧ m.expire_at_ms < now then Resolved.Absent
    else if m.type_tag = TypeTag.String then Resolved.Live m
    else Resolved.WrongType m.type_tag

/-- Modelled from the spec: engine operation `Set(key, value, expire_at_ms,
is_nx, is_xx)` with its decision table; the `store` package is not part of the
source file. -/
def specSet (s : SpecStore) (key value : Bytes) (expireAt : Nat) (isNX isXX : Bool) :
    Option Terror × SpecStore :=
  match specResolve s.now (s.find key) with
  | Resolved.WrongType _ => (some Terror.TypeMismatch, s)
  | Resolved.Absent =>
    if isXX then (some Terror.ConditionFailed, s)
    else (none, s.put key ⟨TypeTag.String, expireAt, value⟩)
  | Resolved.Live _ =>
    if isNX then (some Terror.ConditionFailed, s)
    else (none, s.put key ⟨TypeTag.String, expireAt, value⟩)

/-- Modelled from the spec: a key of the batch "currently holds a non-String,
non-absent value". -/
def specHoldsNonString (s : SpecStore) (key : Bytes) : Bool :=
  match specResolve s.now (s.find key) with
  | Resolved.WrongType _ => true
  | _ => false

/-- Modelled from the spec: engine operation `MSet(key→value mapping)`: the type
tags of all keys are read first; if any key holds a non-String, non-absent value
nothing is written; otherwise every key is written as a String with no expiry.
The `store` package is not part of the source file. -/
def specMSet (s : SpecStore) (kv : GoMap) : Option Terror × SpecStore :=
  if kv.any (fun p => specHoldsNonString s p.1) then (some Terror.TypeMismatch, s)
  else (none, kv.foldl (fun acc p => acc.put p.1 ⟨TypeTag.String, 0, p.2⟩) s)

/-- The decimal text of an integer. -/
def formatInt (n : Int) : Bytes :=
  if n < 0 then 45 :: (Nat.toDigits 10 n.natAbs).map Char.toNat
  else (Nat.toDigits 10 n.natAbs).map Char.toNat

/-- Modelled from the spec: engine operation `Incr(key, step)`: an absent key
counts as 0, a value that is not a signed 64-bit decimal is a format error, a
sum outside the signed 64-bit range is an overflow error, and the new value is
written as decimal text with the expiry kept. The `store` package is not part
of the source file. -/
def specIncr (s : SpecStore) (key : Bytes) (step : Int) : Except Terror Int × SpecStore :=
  match specResolve s.now (s.find key) with
  | Resolved.WrongType _ => (Except.error Terror.TypeMismatch, s)
  | Resolved.Absent =>
    if step < -(2 ^ 63) ∨ 2 ^ 63 ≤ step then (Except.error Terror.Overflow, s)
    else (Except.ok step, s.put key ⟨TypeTag.String, 0, formatInt step⟩)
  | Resolved.Live m =>
    match ParseInt m.inline_value with
    | none => (Except.error Terror.FormatError, s)
    | some old =>
      if old + step < -(2 ^ 63) ∨ 2 ^ 63 ≤ old + step then (Except.error Terror.Overflow, s)
      else (Except.ok (old + step),
        s.put key ⟨TypeTag.String, m.expire_at_ms, formatInt (old + step)⟩)

/-- Modelled from the spec: the string engine of the spec as a `StringEngine`. -/
def specEngine : StringEngine SpecStore :=
  { Set := specSet, MSet := specMSet, Incr := specIncr }

/-- Modelled from the spec: key `key` exists as far as any command can tell
(it resolves to something else than absent). -/
def SpecStore.isPresent (s : SpecStore) (key : Bytes) : Bool :=
  match specResolve s.now (s.find key) with
  | Resolved.Absent => false
  | _ => true

/-! ## Spec-side descriptions used in the statements -/

/-- The key/value pairs `(k1, v1), ..., (kn, vn)` of an argument vector
`k1 v1 ... kn vn`, in order. -/
def argPairs : List Bytes → List (Bytes × Bytes)
  | k :: v :: rest => (k, v) :: argPairs rest
  | _ => []

/-- The value paired with the last occurrence of `key` in a list of pairs. -/
def lastValue (pairs : List (Bytes × Bytes)) (key : Bytes) : Option Bytes :=
  match pairs.reverse.find? (fun p => p.1 = key) with
  | none => none
  | some p => some p.2

/-- A clock that always shows the same instant. -/
def fixedClock (unix unixNano : Int) : Clock := fun _ => { unix := unix, unixNano := unixNano }

/-- An empty world over the spec engine at time `now` (epoch milliseconds). -/
def emptyWorld (now : Nat) : World SpecStore := { store := { now := now, recs := [] }, calls := [] }

/-- An option word of `SET` that introduces a duration: `EX` or `PX` in any
letter case. -/
def isExPx (p : Bytes) : Prop := ToLower p = ascii "ex" ∨ ToLower p = ascii "px"

/-- Option number `i` of `c.args[2:]` is the word `word` (compared in lower
case) and the argument after it is the text of the non-negative signed 64-bit
integer `d`. -/
def AcceptedOption (c : Client) (word : Bytes) (i : Nat) (d : Int) : Prop :=
  ∃ opt a, c.args[i + 2]? = some opt ∧ ToLower opt = word ∧ c.args[i + 3]? = some a ∧
    ParseInt a = some d ∧ 0 ≤ d

/-- A duration argument that is rejected: it is not the text of a signed 64-bit
integer, or it is negative. -/
def BadDuration (a : Bytes) : Prop := ParseInt a = none ∨ ∃ d, ParseInt a = some d ∧ d < 0

/-- Expression `time.Now().UnixNano() / 1000 / 1000`: the current time in
milliseconds. -/
def nowMillis (now : Now) : Int := divInt64 (divInt64 now.unixNano 1000) 1000

/-- A clock stopped at 2023-11-14 22:13:20.123456789 UTC. -/
def clock2023 : Clock := fixedClock 1700000000 1700000000123456789

/-- An empty store at the instant of `clock2023`. -/
def world2023 : World SpecStore := emptyWorld 1700000000123

/-- A store at the instant of `clock2023` in which key `k` holds a list. -/
def worldWithList : World SpecStore :=
  { store := { now := 1700000000123, recs := [(ascii "k", ⟨TypeTag.List, 0, []⟩)] }, calls := [] }

/-! ## Auxiliary facts -/

theorem toUint64_addInt64 (a b : Int) : (toUint64 (addInt64 a b) : Int) = (a + b) % 2 ^ 64 := by
  unfold toUint64 addInt64 wrapInt64
  omega

theorem expireEX_eq (now : Now) (d : Int) :
    (expireEX now d : Int) = (now.unix + d) * 1000 % 2 ^ 64 := by
  unfold expireEX mulUint64
  have h := toUint64_addInt64 d now.unix
  push_cast
  rw [h]
  omega

theorem expirePX_eq (now : Now) (d : Int) :
    (expirePX now d : Int) = (Int.tdiv (Int.tdiv now.unixNano 1000) 1000 + d) % 2 ^ 64 := by
  unfold expirePX divInt64
  rw [toUint64_addInt64, add_comm]

theorem wrapInt64_neg (d : Int) (h1 : -(2 ^ 63) < d) (h2 : d < 2 ^ 63) :
    mulInt64 d (-1) = -d := by
  unfold mulInt64 wrapInt64
  omega

theorem ParseInt_range (s : Bytes) (d : Int) (h : ParseInt s = some d) :
    -(2 ^ 63) ≤ d ∧ d < 2 ^ 63 := by
  unfold ParseInt at h
  split at h
  · simp at h
  · simp only at h
    split at h
    · simp at h
    · split at h
      · simp at h
      · split at h
        · split at h
          · simp at h
          · simp at h; omega
        · split at h
          · simp at h
          · simp at h; omega

theorem nowMs_bounds (n : Int) (h0 : 0 ≤ n) (h1 : n < 2 ^ 63) :
    0 ≤ Int.tdiv (Int.tdiv n 1000) 1000 ∧ Int.tdiv (Int.tdiv n 1000) 1000 < 2 ^ 63 := by
  have e1 : Int.tdiv n 1000 = n / 1000 := Int.tdiv_eq_ediv h0 (by norm_num)
  have h2 : 0 ≤ n / 1000 := by omega
  have e2 : Int.tdiv (n / 1000) 1000 = n / 1000 / 1000 := Int.tdiv_eq_ediv h2 (by norm_num)
  rw [e1, e2]
  omega

theorem ParseInt_head (s : Bytes) (d : Int) (h : ParseInt s = some d) :
    ∃ b rest, s = b :: rest ∧ (b = 43 ∨ b = 45 ∨ (48 ≤ b ∧ b ≤ 57)) := by
  cases s with
  | nil => simp [ParseInt] at h
  | cons b rest =>
    refine ⟨b, rest, rfl, ?_⟩
    by_cases hs : b = 43 ∨ b = 45
    · omega
    · right; right
      unfold ParseInt at h
      simp only [hs, if_false] at h
      simp only [parseDigits] at h
      unfold digitVal at h
      by_cases hb : 48 ≤ b ∧ b ≤ 57
      · exact hb
      · simp [hb] at h

theorem ParseInt_not_word (s : Bytes) (d : Int) (h : ParseInt s = some d) :
    ToLower s ≠ ascii "ex" ∧ ToLower s ≠ ascii "px" ∧ ToLower s ≠ ascii "nx" ∧
      ToLower s ≠ ascii "xx" := by
  obtain ⟨b, rest, rfl, hb⟩ := ParseInt_head s d h
  have e1 : ascii "ex" = [101, 120] := by decide
  have e2 : ascii "px" = [112, 120] := by decide
  have e3 : ascii "nx" = [110, 120] := by decide
  have e4 : ascii "xx" = [120, 120] := by decide
  rw [e1, e2, e3, e4]
  simp only [ToLower, List.map_cons, toLowerByte]
  refine ⟨?_, ?_, ?_, ?_⟩ <;> intro hc <;> simp only [List.cons.injEq] at hc <;>
    obtain ⟨h1, _⟩ := hc <;> split at h1 <;> omega

theorem setOptions_no_word (c : Client) (clock : Clock) :
    ∀ (rest : List Bytes) (j : Nat) (st st' : SetOpts),
      (∀ p ∈ rest, ¬ isExPx p) → setOptions c clock rest j st = Except.ok st' →
      st'.expireAt = st.expireAt := by
  intro rest
  induction rest with
  | nil =>
    intro j st st' _ h
    simp only [setOptions, Except.ok.injEq] at h
    rw [h]
  | cons p rest ih =>
    intro j st st' hno h
    have hp : ¬ isExPx p := hno p (List.mem_cons_self _ _)
    have hrest : ∀ q ∈ rest, ¬ isExPx q := fun q hq => hno q (List.mem_cons_of_mem _ hq)
    unfold isExPx at hp
    have h1 : ToLower p ≠ ascii "ex" := fun e => hp (Or.inl e)
    have h2 : ToLower p ≠ ascii "px" := fun e => hp (Or.inr e)
    simp only [setOptions, h1, h2, if_false] at h
    split at h
    · exact (ih _ _ _ hrest h).trans rfl
    · split at h
      · exact (ih _ _ _ hrest h).trans rfl
      · exact ih _ _ _ hrest h

theorem setOptions_word (c : Client) (clock : Clock) :
    ∀ (rest : List Bytes) (j : Nat) (st st' : SetOpts),
      (∀ n, rest[n]? = c.args[j + 2 + n]?) → (∃ p ∈ rest, isExPx p) →
      setOptions c clock rest j st = Except.ok st' →
      ∃ i t d, (AcceptedOption c (ascii "ex") i d ∧ st'.expireAt = expireEX (clock t) d) ∨
        (AcceptedOption c (ascii "px") i d ∧ st'.expireAt = expirePX (clock t) d) := by
  intro rest
  induction rest with
  | nil =>
    intro j st st' _ hex _
    obtain ⟨p, hp, _⟩ := hex
    simp at hp
  | cons p rest ih =>
    intro j st st' hidx hex h
    have hidx' : ∀ n, rest[n]? = c.args[j + 1 + 2 + n]? := by
      intro n
      have := hidx (n + 1)
      simp only [List.getElem?_cons_succ] at this
      rw [this]
      congr 1
      omega
    have hp0 : c.args[j + 2]? = some p := by
      have := hidx 0
      simpa using this.symm
    -- what happens after this iteration when it assigned the expiry
    have key : ∀ (st2 : SetOpts), setOptions c clock rest (j + 1) st2 = Except.ok st' →
        (∃ i t d, (AcceptedOption c (ascii "ex") i d ∧ st2.expireAt = expireEX (clock t) d) ∨
          (AcceptedOption c (ascii "px") i d ∧ st2.expireAt = expirePX (clock t) d)) →
        ∃ i t d, (AcceptedOption c (ascii "ex") i d ∧ st'.expireAt = expireEX (clock t) d) ∨
          (AcceptedOption c (ascii "px") i d ∧ st'.expireAt = expirePX (clock t) d) := by
      intro st2 h2 hst2
      by_cases hw : ∃ q ∈ rest, isExPx q
      · exact ih _ _ _ hidx' hw h2
      · have hno : ∀ q ∈ rest, ¬ isExPx q := fun q hq hq' => hw ⟨q, hq, hq'⟩
        have := setOptions_no_word c clock rest (j + 1) st2 st' hno h2
        rw [this]
        exact hst2
    have later : ¬ isExPx p → ∃ q ∈ rest, isExPx q := by
      intro hnp
      obtain ⟨q, hq, hq'⟩ := hex
      rcases List.mem_cons.mp hq with e | e
      · exact absurd (e ▸ hq') hnp
      · exact ⟨q, e, hq'⟩
    simp only [setOptions] at h
    split at h
    · rename_i hcon
      split at h
      · simp at h
      · rename_i a ha
        split at h
        · simp at h
        · rename_i sec hsec
          split at h
          · simp at h
          · rename_i hneg
            refine key _ h ⟨j, st.tick, sec, Or.inl ⟨⟨p, a, hp0, hcon, ha, hsec, by omega⟩, rfl⟩⟩
    · rename_i hcon
      split at h
      · rename_i hcon2
        split at h
        · simp at h
        · rename_i a ha
          split at h
          · simp at h
          · rename_i msec hsec
            split at h
            · simp at h
            · rename_i hneg
              refine key _ h ⟨j, st.tick, msec, Or.inr ⟨⟨p, a, hp0, hcon2, ha, hsec, by omega⟩, rfl⟩⟩
      · rename_i hcon2
        have hnp : ¬ isExPx p := by
          unfold isExPx
          intro hc
          rcases hc with e | e
          · exact hcon e
          · exact hcon2 e
        have hw := later hnp
        split at h
        · exact ih _ _ _ hidx' hw h
        · split at h
          · exact ih _ _ _ hidx' hw h
          · exact ih _ _ _ hidx' hw h

theorem setOptions_bad (c : Client) (clock : Clock) :
    ∀ (rest : List Bytes) (j : Nat) (st : SetOpts),
      (∀ n, rest[n]? = c.args[j + 2 + n]?) →
      ∀ (n : Nat) (opt a : Bytes), rest[n]? = some opt → isExPx opt →
        c.args[j + n + 3]? = some a → BadDuration a →
        setOptions c clock rest j st = Except.error paramError := by
  intro rest
  induction rest with
  | nil =>
    intro j st _ n opt a h
    simp at h
  | cons p rest ih =>
    intro j st hidx n opt a hn hopt ha hbad
    have hidx' : ∀ n, rest[n]? = c.args[j + 1 + 2 + n]? := by
      intro n
      have := hidx (n + 1)
      simp only [List.getElem?_cons_succ] at this
      rw [this]
      congr 1
      omega
    cases n with
    | zero =>
      simp only [List.getElem?_cons_zero, Option.some.injEq] at hn
      subst hn
      have ha' : c.args[j + 3]? = some a := by simpa using ha
      have hpx : ascii "px" ≠ ascii "ex" := by decide
      rcases hopt with e | e <;> rcases hbad with hb | ⟨d, hb, hd⟩ <;>
        simp [setOptions, e, ha', hb, hpx] <;> intro hd' <;> omega
    | succ n =>
      simp only [List.getElem?_cons_succ] at hn
      have hrec := ih (j + 1) 
      have ha2 : c.args[j + 1 + n + 3]? = some a := by
        rw [← ha]; congr 1; omega
      obtain ⟨x, hx⟩ : ∃ x, c.args[j + 3]? = some x := by
        have h0 : (rest[0]?).isSome := by
          cases rest with
          | nil => simp at hn
          | cons y ys => simp
        have h1 := hidx' 0
        simp only [Nat.add_zero] at h1
        have h2 : c.args[j + 3]? = rest[0]? := by
          rw [h1]
        rw [h2]
        exact Option.isSome_iff_exists.mp h0
      simp only [setOptions, hx]
      split
      · split
        · rfl
        · split
          · rfl
          · exact ih _ _ hidx' n opt a hn hopt ha2 hbad
      · split
        · split
          · rfl
          · split
            · rfl
            · exact ih _ _ hidx' n opt a hn hopt ha2 hbad
        · split
          · exact ih _ _ hidx' n opt a hn hopt ha2 hbad
          · split
            · exact ih _ _ hidx' n opt a hn hopt ha2 hbad
            · exact ih _ _ hidx' n opt a hn hopt ha2 hbad

theorem GoMap.get_assign (m : GoMap) (k v k' : Bytes) :
    GoMap.get (GoMap.assign m k v) k' = if k = k' then some v else GoMap.get m k' := by
  induction m with
  | nil => simp [GoMap.assign, GoMap.get]
  | cons p m ih =>
    obtain ⟨a, b⟩ := p
    simp only [GoMap.assign]
    by_cases h : a = k
    · subst h
      simp only [if_true, GoMap.get]
      by_cases h' : a = k' <;> simp [h']
    · simp only [h, if_false, GoMap.get, ih]
      by_cases h' : a = k'
      · subst h'
        simp [Ne.symm h]
      · simp [h']

theorem GoMap.mem_keys_iff (m : GoMap) (k : Bytes) :
    k ∈ GoMap.keys m ↔ (GoMap.get m k).isSome = true := by
  induction m with
  | nil => simp [GoMap.keys, GoMap.get]
  | cons p m ih =>
    obtain ⟨a, b⟩ := p
    simp only [GoMap.keys, List.map_cons, List.mem_cons, GoMap.get] at ih ⊢
    by_cases h : a = k
    · simp [h]
    · simp [h, ih, Ne.symm h]

theorem GoMap.keys_assign_nodup (m : GoMap) (k v : Bytes) (h : (GoMap.keys m).Nodup) :
    (GoMap.keys (GoMap.assign m k v)).Nodup := by
  induction m with
  | nil => simp [GoMap.assign, GoMap.keys]
  | cons p m ih =>
    obtain ⟨a, b⟩ := p
    simp only [GoMap.keys, List.map_cons, List.nodup_cons] at h
    simp only [GoMap.assign]
    by_cases hk : a = k
    · subst hk
      simpa [GoMap.keys] using h
    · simp only [hk, if_false, GoMap.keys, List.map_cons, List.nodup_cons]
      refine ⟨?_, ih h.2⟩
      intro hmem
      have h1 : a ∈ GoMap.keys (GoMap.assign m k v) := hmem
      rw [GoMap.mem_keys_iff, GoMap.get_assign] at h1
      simp only [Ne.symm hk, if_false] at h1
      rw [← GoMap.mem_keys_iff] at h1
      exact h.1 h1

theorem lastValue_cons (p : Bytes × Bytes) (ps : List (Bytes × Bytes)) (k : Bytes) :
    lastValue (p :: ps) k =
      match lastValue ps k with
      | some v => some v
      | none => if p.1 = k then some p.2 else none := by
  unfold lastValue
  simp only [List.reverse_cons, List.find?_append]
  cases h : List.find? (fun q => decide (q.1 = k)) ps.reverse with
  | some q => simp
  | none =>
    by_cases hk : p.1 = k <;> simp [hk]

theorem lastValue_isSome (ps : List (Bytes × Bytes)) (k : Bytes) :
    (lastValue ps k).isSome = true ↔ k ∈ ps.map Prod.fst := by
  induction ps with
  | nil => simp [lastValue]
  | cons p ps ih =>
    rw [lastValue_cons]
    simp only [List.map_cons, List.mem_cons]
    cases h : lastValue ps k with
    | some v =>
      rw [h] at ih
      simp at ih
      simp only [Option.isSome_some, true_iff]
      right
      simpa using ih
    | none =>
      rw [h] at ih
      simp at ih
      by_cases hk : p.1 = k
      · simp [hk]
      · simp only [hk, if_false, Option.isSome_none, Bool.false_eq_true, false_iff, not_or]
        refine ⟨fun e => hk e.symm, ?_⟩
        intro hmem
        obtain ⟨q, hq, hq'⟩ := List.mem_map.mp hmem
        exact ih q.2 (by rw [← hq']; exact hq)

theorem msetLoop_spec :
    ∀ (n : Nat) (args : List Bytes) (m0 : GoMap), args.length = 2 * n → (GoMap.keys m0).Nodup →
      ∃ m, msetLoop args m0 = some m ∧ (GoMap.keys m).Nodup ∧
        ∀ k, GoMap.get m k =
          match lastValue (argPairs args) k with
          | some v => some v
          | none => GoMap.get m0 k := by
  intro n
  induction n with
  | zero =>
    intro args m0 hlen hnd
    have : args = [] := List.length_eq_zero.mp (by omega)
    subst this
    exact ⟨m0, rfl, hnd, fun k => by simp [argPairs, lastValue]⟩
  | succ n ih =>
    intro args m0 hlen hnd
    match args, hlen with
    | [], hlen => simp at hlen
    | [_], hlen => simp at hlen; omega
    | a :: b :: rest, hlen =>
      have hl : rest.length = 2 * n := by simp at hlen; omega
      obtain ⟨m, hm, hnd', hget⟩ := ih rest (GoMap.assign m0 a b) hl
        (GoMap.keys_assign_nodup m0 a b hnd)
      refine ⟨m, by simpa [msetLoop] using hm, hnd', ?_⟩
      intro k
      rw [hget k]
      simp only [argPairs]
      rw [lastValue_cons, GoMap.get_assign]
      cases lastValue (argPairs rest) k with
      | some v => rfl
      | none =>
        by_cases hk : a = k <;> simp [hk, lastValue]

theorem setCommand_of_parse_error {σ : Type} (E : StringEngine σ) (clock : Clock) (c : Client)
    (w : World σ) (o : Outcome) (h : setParse c clock = Except.error o) :
    setCommand E clock c w = (o, w) := by
  simp [setCommand, h]

theorem setCommand_of_parse_ok {σ : Type} (E : StringEngine σ) (clock : Clock) (c : Client)
    (w : World σ) (st : SetOpts) (key value : Bytes) (h : setParse c clock = Except.ok st)
    (h0 : c.args[0]? = some key) (h1 : c.args[1]? = some value) :
    setCommand E clock c w =
      (if (E.Set w.store key value st.expireAt st.isNX st.isXX).1 = none then replyOK
        else Outcome.reply Reply.Null,
       { store := (E.Set w.store key value st.expireAt st.isNX st.isXX).2,
         calls := w.calls ++ [EngineCall.Set key value st.expireAt st.isNX st.isXX] }) := by
  simp only [setCommand, h, h0, h1, callSet]
  cases (E.Set w.store key value st.expireAt st.isNX st.isXX).1 <;> simp

theorem setCommand_call_inv {σ : Type} (E : StringEngine σ) (clock : Clock) (c : Client)
    (w : World σ) (key value : Bytes) (e : Nat) (nx xx : Bool)
    (h : (setCommand E clock c w).2.calls = w.calls ++ [EngineCall.Set key value e nx xx]) :
    ∃ st, setParse c clock = Except.ok st ∧ st.expireAt = e := by
  cases hp : setParse c clock with
  | error o =>
    rw [setCommand_of_parse_error E clock c w o hp] at h
    simp at h
  | ok st =>
    refine ⟨st, rfl, ?_⟩
    cases h0 : c.args[0]? with
    | none => simp [setCommand, hp, h0] at h
    | some k =>
      cases h1 : c.args[1]? with
      | none => simp [setCommand, hp, h0, h1] at h
      | some v =>
        rw [setCommand_of_parse_ok E clock c w st k v hp h0 h1] at h
        simp only [List.append_cancel_left_eq, List.cons.injEq, EngineCall.Set.injEq, and_true] at h
        exact h.2.2.1

theorem setParse_no_word (c : Client) (clock : Clock) (st : SetOpts)
    (h : setParse c clock = Except.ok st) (hno : ∀ p ∈ c.args.drop 2, ¬ isExPx p) :
    st.expireAt = 0 := by
  unfold setParse at h
  split at h
  · exact setOptions_no_word c clock _ 0 SetOpts.init st hno h
  · simp only [Except.ok.injEq] at h
    rw [← h]; rfl

theorem setParse_word (c : Client) (clock : Clock) (st : SetOpts)
    (h : setParse c clock = Except.ok st) (hw : ∃ p ∈ c.args.drop 2, isExPx p) :
    ∃ i t d, (AcceptedOption c (ascii "ex") i d ∧ st.expireAt = expireEX (clock t) d) ∨
      (AcceptedOption c (ascii "px") i d ∧ st.expireAt = expirePX (clock t) d) := by
  unfold setParse at h
  split at h
  · refine setOptions_word c clock _ 0 SetOpts.init st ?_ hw h
    intro n
    rw [List.getElem?_drop, Nat.zero_add]
  · rename_i hc
    obtain ⟨p, hp, _⟩ := hw
    have : c.args.drop 2 = [] := by
      apply List.drop_eq_nil_of_le
      unfold Client.argc at hc
      omega
    rw [this] at hp
    simp at hp

theorem setParse_bad (c : Client) (clock : Clock) (i : Nat) (opt a : Bytes)
    (h2 : c.args[i + 2]? = some opt) (hopt : isExPx opt) (h3 : c.args[i + 3]? = some a)
    (hbad : BadDuration a) : setParse c clock = Except.error paramError := by
  unfold setParse
  have hlen : c.argc > 2 := by
    unfold Client.argc
    have := (List.getElem?_eq_some_iff.mp h2).1
    omega
  simp only [hlen, if_true]
  refine setOptions_bad c clock _ 0 SetOpts.init ?_ i opt a ?_ hopt ?_ hbad
  · intro n
    rw [List.getElem?_drop, Nat.zero_add]
  · rw [List.getElem?_drop, ← h2]; congr 1; omega
  · rw [← h3]; congr 1; omega

/-- C1 (as the code behaves): for every key, seconds text and value, when the
seconds text parses as a non-negative signed 64-bit integer `sec`, `setexCommand`
on `SETEX key seconds value` makes one engine `Set` call whose stored value is
the seconds argument `c.args[1]`, not the value argument `c.args[2]`; NX and XX
are false and the expiry is derived from `sec`. -/
theorem C1_setex_stores_seconds_argument {σ : Type} (E : StringEngine σ) (clock : Clock)
    (key seconds value : Bytes) (w : World σ) (sec : Int)
    (hparse : ParseInt seconds = some sec) (hsec : 0 ≤ sec) :
    (setexCommand E clock ⟨[key, seconds, value]⟩ w).2.calls =
      w.calls ++ [EngineCall.Set key seconds (expireEX (clock 0) sec) false false] := by
  have hneg : ¬ sec < 0 := by omega
  simp only [setexCommand, List.getElem?_cons_succ, List.getElem?_cons_zero, hparse, hneg,
    if_false, callSet]
  cases (E.Set w.store key seconds (expireEX (clock 0) sec) false false).1 <;> rfl

/-- Witness for C1: `SETEX k 10 v` on an empty store replies OK after calling
`Set` with value `10`; the store then holds `10` under `k`, and `10` is not `v`. -/
theorem C1_setex_stores_seconds_argument_witness :
    (ParseInt (ascii "10") = some 10 ∧ (0 : Int) ≤ 10) ∧
    (setexCommand specEngine clock2023 ⟨[ascii "k", ascii "10", ascii "v"]⟩ world2023).2.calls =
      world2023.calls ++
        [EngineCall.Set (ascii "k") (ascii "10") (expireEX (clock2023 0) 10) false false] ∧
    (setexCommand specEngine clock2023 ⟨[ascii "k", ascii "10", ascii "v"]⟩ world2023).2.store.find
        (ascii "k") = some ⟨TypeTag.String, 1700000010000, ascii "10"⟩ ∧
    ascii "10" ≠ ascii "v" :=
  ⟨⟨by decide, by decide⟩,
   C1_setex_stores_seconds_argument specEngine clock2023 (ascii "k") (ascii "10") (ascii "v")
     world2023 10 (by decide) (by decide),
   by decide, by decide⟩

/-- C2 as stated fails: with key `k` holding a list, the engine's `Set` fails
with a type mismatch (not with a failed NX condition), and `SETNX k v` still
writes integer `0`, the reply of a failed condition. -/
theorem C2_counterexample_setnx_type_mismatch :
    (specEngine.Set worldWithList.store (ascii "k") (ascii "v") 0 true false).1 =
      some Terror.TypeMismatch ∧
    (setnxCommand specEngine ⟨[ascii "k", ascii "v"]⟩ worldWithList).1 =
      Outcome.reply (Reply.Integer 0) := by
  constructor <;> decide

/-- C2 (amended): `setnxCommand` writes integer `1` exactly when the engine's
`Set` (called with expiry `0`, NX true, XX false) succeeds and integer `0`
exactly when it fails, whatever the error; `setCommand`, once its options are
read, writes `OK` when `Set` succeeds and null when `Set` fails because the
NX/XX condition was not met. -/
theorem C2_setnx_zero_on_any_failure {σ : Type} (E : StringEngine σ) (clock : Clock)
    (c : Client) (w : World σ) (key value : Bytes)
    (h0 : c.args[0]? = some key) (h1 : c.args[1]? = some value) :
    ((setnxCommand E c w).1 = Outcome.reply (Reply.Integer 1) ↔
      (E.Set w.store key value 0 true false).1 = none) ∧
    ((setnxCommand E c w).1 = Outcome.reply (Reply.Integer 0) ↔
      ∃ err, (E.Set w.store key value 0 true false).1 = some err) ∧
    (setnxCommand E c w).2.calls = w.calls ++ [EngineCall.Set key value 0 true false] ∧
    (∀ st, setParse c clock = Except.ok st →
      ((E.Set w.store key value st.expireAt st.isNX st.isXX).1 = none →
        (setCommand E clock c w).1 = replyOK) ∧
      ((E.Set w.store key value st.expireAt st.isNX st.isXX).1 = some Terror.ConditionFailed →
        (setCommand E clock c w).1 = Outcome.reply Reply.Null)) := by
  refine ⟨?_, ?_, ?_, ?_⟩
  · simp only [setnxCommand, h0, h1, callSet]
    cases (E.Set w.store key value 0 true false).1 <;> simp
  · simp only [setnxCommand, h0, h1, callSet]
    cases (E.Set w.store key value 0 true false).1 <;> simp
  · simp only [setnxCommand, h0, h1, callSet]
    cases (E.Set w.store key value 0 true false).1 <;> rfl
  · intro st hst
    rw [setCommand_of_parse_ok E clock c w st key value hst h0 h1]
    constructor
    · intro h
      simp [h]
    · intro h
      simp [h]

/-- Witness for C2 (amended): `SETNX k v` with `k` holding a list. -/
theorem C2_setnx_zero_on_any_failure_witness :
    (setnxCommand specEngine ⟨[ascii "k", ascii "v"]⟩ worldWithList).1 =
        Outcome.reply (Reply.Integer 0) ↔
      ∃ err, (specEngine.Set worldWithList.store (ascii "k") (ascii "v") 0 true false).1 =
        some err :=
  (C2_setnx_zero_on_any_failure specEngine clock2023 ⟨[ascii "k", ascii "v"]⟩ worldWithList
    (ascii "k") (ascii "v") rfl rfl).2.1

/-- C3: a parameter-error reply is written before any engine operation. For
every engine, clock, argument vector and starting state: (1) whenever
`setCommand` replies with the parameter error, the call log and the store are
as they were; (2) a `SET` whose EX/PX word (any letter case) is followed by an
argument that is not an integer or is negative replies with the parameter error
and changes nothing; (3) so does `SETEX` with such a seconds argument; (4) so
does `MSET` with an odd argument count; (5) so do `INCRBY` and `DECRBY` with a
delta that does not parse as a signed 64-bit integer. -/
theorem C3_parameter_error_before_engine {σ : Type} (E : StringEngine σ) (clock : Clock)
    (c : Client) (w : World σ) :
    ((setCommand E clock c w).1 = paramError → (setCommand E clock c w).2 = w) ∧
    (∀ i opt a, c.args[i + 2]? = some opt → isExPx opt → c.args[i + 3]? = some a →
      BadDuration a → setCommand E clock c w = (paramError, w)) ∧
    (∀ a, c.args[1]? = some a → BadDuration a → setexCommand E clock c w = (paramError, w)) ∧
    (c.argc % 2 = 1 → msetCommand E c w = (paramError, w)) ∧
    (∀ a, c.args[1]? = some a → ParseInt a = none →
      incrbyCommand E c w = (paramError, w) ∧ decrbyCommand E c w = (paramError, w)) := by
  refine ⟨?_, ?_, ?_, ?_, ?_⟩
  · intro h
    cases hp : setParse c clock with
    | error o => rw [setCommand_of_parse_error E clock c w o hp]
    | ok st =>
      exfalso
      cases h0 : c.args[0]? with
      | none => simp [setCommand, hp, h0, paramError] at h
      | some k =>
        cases h1 : c.args[1]? with
        | none => simp [setCommand, hp, h0, h1, paramError] at h
        | some v =>
          rw [setCommand_of_parse_ok E clock c w st k v hp h0 h1] at h
          simp only [paramError, replyOK] at h
          split at h <;> simp at h
  · intro i opt a h2 hopt h3 hbad
    exact setCommand_of_parse_error E clock c w _ (setParse_bad c clock i opt a h2 hopt h3 hbad)
  · intro a h1 hbad
    rcases hbad with hb | ⟨d, hb, hd⟩
    · simp [setexCommand, h1, hb]
    · simp [setexCommand, h1, hb, hd]
  · intro hodd
    simp [msetCommand, hodd]
  · intro a h1 hb
    constructor
    · simp [incrbyCommand, h1, hb]
    · simp [decrbyCommand, h1, hb]

/-- Witness for C3: `SETEX c -1 v` on an empty store replies with the parameter
error, makes no engine call, and `c` does not exist afterwards. -/
theorem C3_parameter_error_before_engine_witness :
    BadDuration (ascii "-1") ∧
    setexCommand specEngine clock2023 ⟨[ascii "c", ascii "-1", ascii "v"]⟩ world2023 =
      (paramError, world2023) ∧
    world2023.calls = [] ∧ world2023.store.isPresent (ascii "c") = false :=
  ⟨Or.inr ⟨-1, by decide, by decide⟩,
   (C3_parameter_error_before_engine specEngine clock2023
      ⟨[ascii "c", ascii "-1", ascii "v"]⟩ world2023).2.2.1 (ascii "-1") rfl
      (Or.inr ⟨-1, by decide, by decide⟩),
   rfl, by decide⟩

/-- C4 as stated fails: at 2023-11-14 22:13:20 UTC, `SET k v EX 9223372036854775807`
(an accepted duration) passes `expire_at_ms = 1699999999000` to the engine's
`Set`, which is not the exact integer `(now_seconds + d) × 1000`. -/
theorem C4_counterexample_ex_wraps :
    ParseInt (ascii "9223372036854775807") = some 9223372036854775807 ∧
    (setCommand specEngine clock2023
        ⟨[ascii "k", ascii "v", ascii "EX", ascii "9223372036854775807"]⟩ world2023).2.calls =
      [EngineCall.Set (ascii "k") (ascii "v") 1699999999000 false false] ∧
    (1699999999000 : Int) ≠ ((clock2023 0).unix + 9223372036854775807) * 1000 := by
  refine ⟨by decide, by decide, by decide⟩

/-- C4 (amended): the expiry is the exact value reduced modulo `2^64`. Whenever
`setCommand` calls the engine's `Set` with expiry `e`, either no EX/PX word is
among the options and `e = 0`, or `e` comes from an accepted EX duration `d` and
a clock reading with `e = ((now_seconds + d) × 1000) mod 2^64`, which is the
exact `(now_seconds + d) × 1000` when `now_seconds ≥ 0` and the product is below
`2^64`, or `e` comes from an accepted PX duration `d` with
`e = (now_milliseconds + d) mod 2^64`, which is the exact `now_milliseconds + d`
for every clock reading at or after the epoch. `setexCommand` with an accepted
seconds argument `d` calls `Set` with `((now_seconds + d) × 1000) mod 2^64`,
exact under the same condition. -/
theorem C4_expiry_exact_modulo {σ : Type} (E : StringEngine σ) (clock : Clock)
    (c : Client) (w : World σ) :
    (∀ key value e nx xx,
      (setCommand E clock c w).2.calls = w.calls ++ [EngineCall.Set key value e nx xx] →
      ((∀ p ∈ c.args.drop 2, ¬ isExPx p) ∧ e = 0) ∨
      (∃ i t d, AcceptedOption c (ascii "ex") i d ∧
        (e : Int) = ((clock t).unix + d) * 1000 % 2 ^ 64 ∧
        (0 ≤ (clock t).unix → ((clock t).unix + d) * 1000 < 2 ^ 64 →
          (e : Int) = ((clock t).unix + d) * 1000)) ∨
      (∃ i t d, AcceptedOption c (ascii "px") i d ∧
        (e : Int) = (nowMillis (clock t) + d) % 2 ^ 64 ∧
        (0 ≤ (clock t).unixNano → (clock t).unixNano < 2 ^ 63 →
          (e : Int) = nowMillis (clock t) + d))) ∧
    (∀ key a d, c.args[0]? = some key → c.args[1]? = some a → ParseInt a = some d → 0 ≤ d →
      ∃ e : Nat, (setexCommand E clock c w).2.calls =
          w.calls ++ [EngineCall.Set key a e false false] ∧
        (e : Int) = ((clock 0).unix + d) * 1000 % 2 ^ 64 ∧
        (0 ≤ (clock 0).unix → ((clock 0).unix + d) * 1000 < 2 ^ 64 →
          (e : Int) = ((clock 0).unix + d) * 1000)) := by
  constructor
  · intro key value e nx xx hcall
    obtain ⟨st, hst, he⟩ := setCommand_call_inv E clock c w key value e nx xx hcall
    by_cases hw : ∃ p ∈ c.args.drop 2, isExPx p
    · right
      obtain ⟨i, t, d, h | h⟩ := setParse_word c clock st hst hw
      · left
        obtain ⟨hacc, hexp⟩ := h
        refine ⟨i, t, d, hacc, ?_, ?_⟩
        · rw [← he, hexp, expireEX_eq]
        · intro hnow hlt
          obtain ⟨_, _, _, _, _, _, hd⟩ := hacc
          rw [← he, hexp, expireEX_eq]
          apply Int.emod_eq_of_lt
          · have : 0 ≤ (clock t).unix + d := by omega
            omega
          · exact hlt
      · right
        obtain ⟨hacc, hexp⟩ := h
        refine ⟨i, t, d, hacc, ?_, ?_⟩
        · rw [← he, hexp, expirePX_eq]; rfl
        · intro hnow hlt
          obtain ⟨_, a, _, _, _, hpa, hd⟩ := hacc
          have hr := ParseInt_range a d hpa
          have hb := nowMs_bounds (clock t).unixNano hnow hlt
          rw [← he, hexp, expirePX_eq]
          simp only [nowMillis, divInt64]
          apply Int.emod_eq_of_lt <;> omega
    · left
      have hno : ∀ p ∈ c.args.drop 2, ¬ isExPx p := fun p hp hp' => hw ⟨p, hp, hp'⟩
      exact ⟨hno, by rw [← he]; exact setParse_no_word c clock st hst hno⟩
  · intro key a d h0 h1 hpa hd
    have hneg : ¬ d < 0 := by omega
    refine ⟨expireEX (clock 0) d, ?_, ?_, ?_⟩
    · simp only [setexCommand, h0, h1, hpa, hneg, if_false, callSet]
      cases (E.Set w.store key a (expireEX (clock 0) d) false false).1 <;> rfl
    · rw [expireEX_eq]
    · intro hnow hlt
      rw [expireEX_eq]
      apply Int.emod_eq_of_lt
      · have : 0 ≤ (clock 0).unix + d := by omega
        omega
      · exact hlt

/-- Witness for C4 (amended): `SET k v EX 10` at 2023-11-14 22:13:20 UTC calls
`Set` with expiry `1700000010000`, which the theorem places in one of its three
cases. -/
theorem C4_expiry_exact_modulo_witness :
    (setCommand specEngine clock2023 ⟨[ascii "k", ascii "v", ascii "EX", ascii "10"]⟩
        world2023).2.calls =
      world2023.calls ++ [EngineCall.Set (ascii "k") (ascii "v") 1700000010000 false false] ∧
    (((∀ p ∈ (Client.mk [ascii "k", ascii "v", ascii "EX", ascii "10"]).args.drop 2,
        ¬ isExPx p) ∧ 1700000010000 = 0) ∨
      (∃ i t d, AcceptedOption ⟨[ascii "k", ascii "v", ascii "EX", ascii "10"]⟩ (ascii "ex") i d ∧
        ((1700000010000 : Nat) : Int) = ((clock2023 t).unix + d) * 1000 % 2 ^ 64 ∧
        (0 ≤ (clock2023 t).unix → ((clock2023 t).unix + d) * 1000 < 2 ^ 64 →
          ((1700000010000 : Nat) : Int) = ((clock2023 t).unix + d) * 1000)) ∨
      (∃ i t d, AcceptedOption ⟨[ascii "k", ascii "v", ascii "EX", ascii "10"]⟩ (ascii "px") i d ∧
        ((1700000010000 : Nat) : Int) = (nowMillis (clock2023 t) + d) % 2 ^ 64 ∧
        (0 ≤ (clock2023 t).unixNano → (clock2023 t).unixNano < 2 ^ 63 →
          ((1700000010000 : Nat) : Int) = nowMillis (clock2023 t) + d))) :=
  ⟨by decide,
   (C4_expiry_exact_modulo specEngine clock2023
      ⟨[ascii "k", ascii "v", ascii "EX", ascii "10"]⟩ world2023).1
      (ascii "k") (ascii "v") 1700000010000 false false (by decide)⟩

theorem expireEX_ne_zero (now : Now) (d : Int) (h1 : 0 < now.unix) (h2 : 0 ≤ d)
    (h3 : (now.unix + d) * 1000 < 2 ^ 64) : expireEX now d ≠ 0 := by
  have hpos : 0 < (now.unix + d) * 1000 := by
    clear h3
    omega
  have hmod : (now.unix + d) * 1000 % 2 ^ 64 = (now.unix + d) * 1000 :=
    Int.emod_eq_of_lt (le_of_lt hpos) h3
  intro hz
  have hcast := expireEX_eq now d
  rw [hz, hmod] at hcast
  simp only [Nat.cast_zero] at hcast
  exact absurd hcast.symm (ne_of_gt hpos)

theorem expirePX_ne_zero (now : Now) (d : Int) (h1 : 0 < nowMillis now)
    (h2 : 0 ≤ now.unixNano) (h3 : now.unixNano < 2 ^ 63) (h4 : 0 ≤ d) (h5 : d < 2 ^ 63) :
    expirePX now d ≠ 0 := by
  have hb := nowMs_bounds now.unixNano h2 h3
  simp only [nowMillis, divInt64] at h1
  have hpos : 0 < Int.tdiv (Int.tdiv now.unixNano 1000) 1000 + d := by
    clear h3 h5 hb
    omega
  have hlt : Int.tdiv (Int.tdiv now.unixNano 1000) 1000 + d < 2 ^ 64 := by
    clear h1 h2 h3 hpos
    omega
  have hmod := Int.emod_eq_of_lt (le_of_lt hpos) hlt
  intro hz
  have hcast := expirePX_eq now d
  rw [hz, hmod] at hcast
  simp only [Nat.cast_zero] at hcast
  exact absurd hcast.symm (ne_of_gt hpos)

/-- C5 as stated fails: at 2023-11-14 22:13:20 UTC (a time greater than zero),
`SET k v EX 2305843007513693952` and `SETEX k 2305843007513693952 v`, whose
durations are accepted, pass `expire_at_ms = 0` to the engine's `Set` although
an EX option was given. -/
theorem C5_counterexample_zero_expiry :
    ParseInt (ascii "2305843007513693952") = some 2305843007513693952 ∧
    0 < (clock2023 0).unix ∧ 0 < nowMillis (clock2023 0) ∧
    (setCommand specEngine clock2023
        ⟨[ascii "k", ascii "v", ascii "EX", ascii "2305843007513693952"]⟩ world2023).2.calls =
      [EngineCall.Set (ascii "k") (ascii "v") 0 false false] ∧
    (setexCommand specEngine clock2023
        ⟨[ascii "k", ascii "2305843007513693952", ascii "v"]⟩ world2023).2.calls =
      [EngineCall.Set (ascii "k") (ascii "2305843007513693952") 0 false false] := by
  refine ⟨by decide, by decide, by decide, by decide, by decide⟩

theorem msetLoop_even (args : List Bytes) (h : args.length % 2 = 0) :
    ∃ m, msetLoop args [] = some m ∧ (GoMap.keys m).Nodup ∧
      (∀ k, GoMap.get m k = lastValue (argPairs args) k) ∧
      (∀ k, k ∈ GoMap.keys m ↔ k ∈ (argPairs args).map Prod.fst) := by
  obtain ⟨m, hm, hnd, hget⟩ := msetLoop_spec (args.length / 2) args [] (by omega)
    (by simp [GoMap.keys])
  have hget' : ∀ k, GoMap.get m k = lastValue (argPairs args) k := by
    intro k
    rw [hget k]
    cases lastValue (argPairs args) k <;> simp [GoMap.get]
  refine ⟨m, hm, hnd, hget', ?_⟩
  intro k
  rw [GoMap.mem_keys_iff, hget', lastValue_isSome]

theorem msetCommand_even {σ : Type} (E : StringEngine σ) (c : Client) (w : World σ)
    (m : GoMap) (heven : c.argc % 2 = 0) (hm : msetLoop c.args [] = some m) :
    msetCommand E c w =
      (match (E.MSet w.store m).1 with
        | some err => Outcome.reply (Reply.Error err)
        | none => replyOK,
       { store := (E.MSet w.store m).2, calls := w.calls ++ [EngineCall.MSet m] }) := by
  simp only [msetCommand, heven, hm, callMSet]
  cases (E.MSet w.store m).1 <;> simp

/-- C7 (engine as the spec describes it): `msetCommand` is all-or-nothing. For
every engine, an `MSET` with an even argument count makes exactly one engine
`MSet` call, carrying every key of the batch with the value of its last
occurrence, leaves the store as that single call leaves it, and replies `OK`
if and only if that call succeeds. With the engine of the spec, for every batch
containing a key that holds a live non-String value the store is unchanged and
the reply is an error, not `OK`. -/
theorem C7_mset_all_or_nothing :
    (∀ (σ : Type) (E : StringEngine σ) (c : Client) (w : World σ), c.argc % 2 = 0 →
      ∃ m, (∀ k, k ∈ GoMap.keys m ↔ k ∈ (argPairs c.args).map Prod.fst) ∧
        (∀ k, GoMap.get m k = lastValue (argPairs c.args) k) ∧
        (msetCommand E c w).2.calls = w.calls ++ [EngineCall.MSet m] ∧
        (msetCommand E c w).2.store = (E.MSet w.store m).2 ∧
        ((msetCommand E c w).1 = replyOK ↔ (E.MSet w.store m).1 = none)) ∧
    (∀ (c : Client) (w : World SpecStore),
      (∃ k ∈ (argPairs c.args).map Prod.fst, specHoldsNonString w.store k = true) →
      (msetCommand specEngine c w).2.store = w.store ∧
      (∃ err, (msetCommand specEngine c w).1 = Outcome.reply (Reply.Error err)) ∧
      (msetCommand specEngine c w).1 ≠ replyOK) := by
  constructor
  · intro σ E c w heven
    obtain ⟨m, hm, _, hget, hkeys⟩ := msetLoop_even c.args heven
    refine ⟨m, hkeys, hget, ?_, ?_, ?_⟩
    · rw [msetCommand_even E c w m heven hm]
    · rw [msetCommand_even E c w m heven hm]
    · rw [msetCommand_even E c w m heven hm]
      cases (E.MSet w.store m).1 <;> simp [replyOK]
  · intro c w hbad
    obtain ⟨k, hk, hns⟩ := hbad
    by_cases heven : c.argc % 2 = 0
    · obtain ⟨m, hm, _, _, hkeys⟩ := msetLoop_even c.args heven
      have hmem : k ∈ GoMap.keys m := (hkeys k).mpr hk
      have hany : m.any (fun p => specHoldsNonString w.store p.1) = true := by
        rw [List.any_eq_true]
        obtain ⟨p, hp, hpk⟩ := List.mem_map.mp hmem
        exact ⟨p, hp, by rw [hpk]; exact hns⟩
      have hres : specEngine.MSet w.store m = (some Terror.TypeMismatch, w.store) := by
        show specMSet w.store m = _
        simp [specMSet, hany]
      rw [msetCommand_even specEngine c w m heven hm, hres]
      refine ⟨rfl, ⟨Terror.TypeMismatch, rfl⟩, ?_⟩
      simp [replyOK]
    · have hodd : c.argc % 2 ≠ 0 := heven
      have hres : msetCommand specEngine c w = (paramError, w) := by
        simp [msetCommand, hodd]
      rw [hres]
      refine ⟨rfl, ⟨Terror.ErrCmdParams, rfl⟩, ?_⟩
      simp [paramError, replyOK]

/-- Witness for C7: with `k` holding a list, `MSET a 1 k 2` leaves the store as
it was (`a` is not created) and replies with an error. -/
theorem C7_mset_all_or_nothing_witness :
    (msetCommand specEngine ⟨[ascii "a", ascii "1", ascii "k", ascii "2"]⟩
        worldWithList).2.store = worldWithList.store ∧
    (∃ err, (msetCommand specEngine ⟨[ascii "a", ascii "1", ascii "k", ascii "2"]⟩
        worldWithList).1 = Outcome.reply (Reply.Error err)) ∧
    (msetCommand specEngine ⟨[ascii "a", ascii "1", ascii "k", ascii "2"]⟩
        worldWithList).1 ≠ replyOK :=
  C7_mset_all_or_nothing.2 ⟨[ascii "a", ascii "1", ascii "k", ascii "2"]⟩ worldWithList
    ⟨ascii "k", by decide, by decide⟩

/-- C8 as stated fails: `DECRBY k -9223372036854775808` has a delta that parses
as a signed 64-bit integer, and the engine's `Incr` is invoked with step
`-9223372036854775808`, not with the exact `−delta = 9223372036854775808`. -/
theorem C8_counterexample_decrby_min :
    ParseInt (ascii "-9223372036854775808") = some (-9223372036854775808) ∧
    (decrbyCommand specEngine ⟨[ascii "k", ascii "-9223372036854775808"]⟩ world2023).2.calls =
      [EngineCall.Incr (ascii "k") (-9223372036854775808)] ∧
    (-9223372036854775808 : Int) ≠ -(-9223372036854775808) := by
  refine ⟨by decide, by decide, by decide⟩

theorem setParse_single_ex (clock : Clock) (key value opt a : Bytes) (d : Int)
    (hopt : ToLower opt = ascii "ex") (hparse : ParseInt a = some d) (hd : 0 ≤ d) :
    setParse ⟨[key, value, opt, a]⟩ clock =
      Except.ok { expireAt := expireEX (clock 0) d, isNX := false, isXX := false, tick := 1 } := by
  obtain ⟨w1, w2, w3, w4⟩ := ParseInt_not_word a d hparse
  have hneg : ¬ d < 0 := by omega
  simp [setParse, Client.argc, setOptions, hopt, hparse, hneg, w1, w2, w3, w4, SetOpts.init]

theorem setParse_single_px (clock : Clock) (key value opt a : Bytes) (d : Int)
    (hopt : ToLower opt = ascii "px") (hparse : ParseInt a = some d) (hd : 0 ≤ d) :
    setParse ⟨[key, value, opt, a]⟩ clock =
      Except.ok { expireAt := expirePX (clock 0) d, isNX := false, isXX := false, tick := 1 } := by
  obtain ⟨w1, w2, w3, w4⟩ := ParseInt_not_word a d hparse
  have hneg : ¬ d < 0 := by omega
  have hpx : ascii "px" ≠ ascii "ex" := by decide
  simp [setParse, Client.argc, setOptions, hopt, hparse, hneg, w1, w2, w3, w4, SetOpts.init, hpx]

/-- C9 as stated fails: at 2023-11-14 22:13:20 UTC, `SET k v EX 0` and
`SET k v PX 0` on an empty store reply `OK`, not the parameter error, after
invoking the engine's `Set` with the current time as expiry. -/
theorem C9_counterexample_zero_duration_accepted :
    (setCommand specEngine clock2023 ⟨[ascii "k", ascii "v", ascii "EX", ascii "0"]⟩
        world2023).1 = replyOK ∧
    (setCommand specEngine clock2023 ⟨[ascii "k", ascii "v", ascii "EX", ascii "0"]⟩
        world2023).2.calls = [EngineCall.Set (ascii "k") (ascii "v") 1700000000000 false false] ∧
    (setCommand specEngine clock2023 ⟨[ascii "k", ascii "v", ascii "PX", ascii "0"]⟩
        world2023).1 = replyOK ∧
    (setCommand specEngine clock2023 ⟨[ascii "k", ascii "v", ascii "PX", ascii "0"]⟩
        world2023).2.calls = [EngineCall.Set (ascii "k") (ascii "v") 1700000000123 false false] ∧
    replyOK ≠ paramError := by
  refine ⟨by decide, by decide, by decide, by decide, by decide⟩

/-- C10 (as the code behaves): for every key and value and every option word
that is `EX` or `PX` in any letter case, `setCommand` on the three arguments
`key value word` indexes `c.args[3]`, which is out of range: the run ends in an
index panic, no reply is written and no engine call is made. -/
theorem C10_trailing_ex_px_index_out_of_range {σ : Type} (E : StringEngine σ) (clock : Clock)
    (key value opt : Bytes) (w : World σ) (hopt : isExPx opt) :
    setCommand E clock ⟨[key, value, opt]⟩ w = (Outcome.panicIndex, w) := by
  apply setCommand_of_parse_error
  have hpx : ascii "px" ≠ ascii "ex" := by decide
  rcases hopt with h | h
  · simp [setParse, Client.argc, setOptions, h]
  · simp [setParse, Client.argc, setOptions, h, hpx]

/-- Witness for C10: `SET k v EX` panics instead of replying with the parameter
error. -/
theorem C10_trailing_ex_px_index_out_of_range_witness :
    isExPx (ascii "EX") ∧
    setCommand specEngine clock2023 ⟨[ascii "k", ascii "v", ascii "EX"]⟩ world2023 =
      (Outcome.panicIndex, world2023) ∧
    Outcome.panicIndex ≠ paramError :=
  ⟨Or.inl (by decide),
   C10_trailing_ex_px_index_out_of_range specEngine clock2023 (ascii "k") (ascii "v")
     (ascii "EX") world2023 (Or.inl (by decide)),
   by decide⟩

theorem mul_thousand_emod_eq_zero_iff (x : Int) :
    x * 1000 % 2 ^ 64 = 0 ↔ x % 2 ^ 61 = 0 := by
  constructor
  · intro h
    have h1 : (2 : Int) ^ 64 ∣ x * 1000 := Int.dvd_of_emod_eq_zero h
    have h2 : (2 : Int) ^ 61 * 8 ∣ (x * 125) * 8 := by
      have e1 : (2 : Int) ^ 61 * 8 = 2 ^ 64 := by norm_num
      have e2 : (x * 125) * 8 = x * 1000 := by ring
      rw [e1, e2]; exact h1
    have h3 : (2 : Int) ^ 61 ∣ x * 125 := Int.dvd_of_mul_dvd_mul_right (by norm_num) h2
    have hc : IsCoprime ((2 : Int) ^ 61) 125 := by
      apply IsCoprime.pow_left
      rw [Int.isCoprime_iff_gcd_eq_one]
      decide
    exact Int.emod_eq_zero_of_dvd (hc.dvd_of_dvd_mul_right h3)
  · intro h
    have h1 : (2 : Int) ^ 61 ∣ x := Int.dvd_of_emod_eq_zero h
    apply Int.emod_eq_zero_of_dvd
    have e1 : (2 : Int) ^ 64 = 2 ^ 61 * 8 := by norm_num
    have e2 : x * 1000 = x * (8 * 125) := by ring
    rw [e1, e2, ← mul_assoc]
    exact Dvd.dvd.mul_right (mul_dvd_mul_right h1 8) 125

theorem expireEX_eq_zero_iff (now : Now) (d : Int) :
    expireEX now d = 0 ↔ (now.unix + d) % 2 ^ 61 = 0 := by
  rw [← mul_thousand_emod_eq_zero_iff, ← expireEX_eq]
  exact Int.natCast_eq_zero.symm

theorem setOptions_no_word_ok (c : Client) (clock : Clock) :
    ∀ (rest : List Bytes) (j : Nat) (st : SetOpts),
      (∀ p ∈ rest, ¬ isExPx p) → ∃ st', setOptions c clock rest j st = Except.ok st' := by
  intro rest
  induction rest with
  | nil =>
    intro j st _
    exact ⟨st, rfl⟩
  | cons p rest ih =>
    intro j st hno
    have hp : ¬ isExPx p := hno p (List.mem_cons_self _ _)
    have hrest : ∀ q ∈ rest, ¬ isExPx q := fun q hq => hno q (List.mem_cons_of_mem _ hq)
    unfold isExPx at hp
    have h1 : ToLower p ≠ ascii "ex" := fun e => hp (Or.inl e)
    have h2 : ToLower p ≠ ascii "px" := fun e => hp (Or.inr e)
    simp only [setOptions, h1, h2, if_false]
    split
    · exact ih _ _ hrest
    · split
      · exact ih _ _ hrest
      · exact ih _ _ hrest

theorem setParse_no_word_ok (c : Client) (clock : Clock)
    (hno : ∀ p ∈ c.args.drop 2, ¬ isExPx p) :
    ∃ st, setParse c clock = Except.ok st ∧ st.expireAt = 0 := by
  have hex : ∃ st, setParse c clock = Except.ok st := by
    unfold setParse
    split
    · exact setOptions_no_word_ok c clock _ 0 SetOpts.init hno
    · exact ⟨SetOpts.init, rfl⟩
  obtain ⟨st, hst⟩ := hex
  exact ⟨st, hst, setParse_no_word c clock st hst hno⟩

theorem setOptions_param_error_inv (c : Client) (clock : Clock) :
    ∀ (rest : List Bytes) (j : Nat) (st : SetOpts),
      (∀ n, rest[n]? = c.args[j + 2 + n]?) →
      setOptions c clock rest j st = Except.error paramError →
      ∃ i opt a, c.args[i + 2]? = some opt ∧ isExPx opt ∧ c.args[i + 3]? = some a ∧
        BadDuration a := by
  intro rest
  induction rest with
  | nil =>
    intro j st _ h
    simp [setOptions] at h
  | cons p rest ih =>
    intro j st hidx h
    have hidx' : ∀ n, rest[n]? = c.args[j + 1 + 2 + n]? := by
      intro n
      have := hidx (n + 1)
      simp only [List.getElem?_cons_succ] at this
      rw [this]
      congr 1
      omega
    have hp0 : c.args[j + 2]? = some p := by
      have := hidx 0
      simpa using this.symm
    simp only [setOptions] at h
    split at h
    · rename_i hcon
      split at h
      · simp [paramError] at h
      · rename_i a ha
        split at h
        · rename_i hpa
          exact ⟨j, p, a, hp0, Or.inl hcon, ha, Or.inl hpa⟩
        · rename_i sec hsec
          split at h
          · rename_i hneg
            exact ⟨j, p, a, hp0, Or.inl hcon, ha, Or.inr ⟨sec, hsec, hneg⟩⟩
          · exact ih _ _ hidx' h
    · split at h
      · rename_i hcon
        split at h
        · simp [paramError] at h
        · rename_i a ha
          split at h
          · rename_i hpa
            exact ⟨j, p, a, hp0, Or.inr hcon, ha, Or.inl hpa⟩
          · rename_i msec hsec
            split at h
            · rename_i hneg
              exact ⟨j, p, a, hp0, Or.inr hcon, ha, Or.inr ⟨msec, hsec, hneg⟩⟩
            · exact ih _ _ hidx' h
      · split at h
        · exact ih _ _ hidx' h
        · split at h
          · exact ih _ _ hidx' h
          · exact ih _ _ hidx' h

theorem setCommand_param_error_inv {σ : Type} (E : StringEngine σ) (clock : Clock)
    (c : Client) (w : World σ) (h : (setCommand E clock c w).1 = paramError) :
    setParse c clock = Except.error paramError := by
  cases hp : setParse c clock with
  | error o =>
    rw [setCommand_of_parse_error E clock c w o hp] at h
    simp only at h
    rw [h]
  | ok st =>
    exfalso
    cases h0 : c.args[0]? with
    | none => simp [setCommand, hp, h0, paramError] at h
    | some k =>
      cases h1 : c.args[1]? with
      | none => simp [setCommand, hp, h0, h1, paramError] at h
      | some v =>
        rw [setCommand_of_parse_ok E clock c w st k v hp h0 h1] at h
        simp only [paramError, replyOK] at h
        split at h <;> simp at h

theorem setParse_param_error_inv (c : Client) (clock : Clock)
    (h : setParse c clock = Except.error paramError) :
    ∃ i opt a, c.args[i + 2]? = some opt ∧ isExPx opt ∧ c.args[i + 3]? = some a ∧
      BadDuration a := by
  unfold setParse at h
  split at h
  · refine setOptions_param_error_inv c clock _ 0 SetOpts.init ?_ h
    intro n
    rw [List.getElem?_drop, Nat.zero_add]
  · simp at h

/-- C5 (amended): a computed expiry is `0` only by wrap-around of the
multiplication by 1000. With every clock reading greater than zero
(milliseconds, as a non-negative `int64` nanosecond reading):
(1) when no EX/PX word is among the options, `setCommand` calls the engine's
`Set` with expiry `0`;
(2) whenever `setCommand` calls `Set` with expiry `e`, `e = 0` exactly when no
EX/PX word is among the options or `e` was computed from an accepted EX
duration `d` and a clock reading with `now_seconds + d` a multiple of `2^61`;
(3) for `SET key value EX d` with any accepted `d`, the expiry passed is `0`
exactly when `now_seconds + d` is a multiple of `2^61`;
(4) for `SET key value PX d` with any accepted `d`, the expiry passed is never `0`;
(5) for `SETEX key d value` with any accepted `d`, the expiry passed is `0`
exactly when `now_seconds + d` is a multiple of `2^61`.
In (1), (3), (4) and (5) the whole run is given: one `Set` call, the store as
`Set` leaves it, and the reply decided by the result of `Set`. -/
theorem C5_zero_expiry_only_by_wrap {σ : Type} (E : StringEngine σ) (clock : Clock)
    (c : Client) (w : World σ)
    (hclk : ∀ t, 0 < nowMillis (clock t) ∧ 0 ≤ (clock t).unixNano ∧
      (clock t).unixNano < 2 ^ 63) :
    (∀ key value, c.args[0]? = some key → c.args[1]? = some value →
      (∀ p ∈ c.args.drop 2, ¬ isExPx p) →
      ∃ nx xx, setCommand E clock c w =
        (if (E.Set w.store key value 0 nx xx).1 = none then replyOK
          else Outcome.reply Reply.Null,
         { store := (E.Set w.store key value 0 nx xx).2,
           calls := w.calls ++ [EngineCall.Set key value 0 nx xx] })) ∧
    (∀ key value e nx xx,
      (setCommand E clock c w).2.calls = w.calls ++ [EngineCall.Set key value e nx xx] →
      (e = 0 ↔ (∀ p ∈ c.args.drop 2, ¬ isExPx p) ∨
        ∃ i t d, AcceptedOption c (ascii "ex") i d ∧ e = expireEX (clock t) d ∧
          ((clock t).unix + d) % 2 ^ 61 = 0)) ∧
    (∀ key value opt a d, c.args = [key, value, opt, a] → ToLower opt = ascii "ex" →
      ParseInt a = some d → 0 ≤ d →
      ∃ e : Nat, (e : Int) = ((clock 0).unix + d) * 1000 % 2 ^ 64 ∧
        (e = 0 ↔ ((clock 0).unix + d) % 2 ^ 61 = 0) ∧
        setCommand E clock c w =
          (if (E.Set w.store key value e false false).1 = none then replyOK
            else Outcome.reply Reply.Null,
           { store := (E.Set w.store key value e false false).2,
             calls := w.calls ++ [EngineCall.Set key value e false false] })) ∧
    (∀ key value opt a d, c.args = [key, value, opt, a] → ToLower opt = ascii "px" →
      ParseInt a = some d → 0 ≤ d →
      ∃ e : Nat, (e : Int) = nowMillis (clock 0) + d ∧ e ≠ 0 ∧
        setCommand E clock c w =
          (if (E.Set w.store key value e false false).1 = none then replyOK
            else Outcome.reply Reply.Null,
           { store := (E.Set w.store key value e false false).2,
             calls := w.calls ++ [EngineCall.Set key value e false false] })) ∧
    (∀ key a d, c.args[0]? = some key → c.args[1]? = some a → ParseInt a = some d → 0 ≤ d →
      ∃ e : Nat, (e : Int) = ((clock 0).unix + d) * 1000 % 2 ^ 64 ∧
        (e = 0 ↔ ((clock 0).unix + d) % 2 ^ 61 = 0) ∧
        setexCommand E clock c w =
          (match (E.Set w.store key a e false false).1 with
            | some err => Outcome.reply (Reply.Error err)
            | none => replyOK,
           { store := (E.Set w.store key a e false false).2,
             calls := w.calls ++ [EngineCall.Set key a e false false] })) := by
  refine ⟨?_, ?_, ?_, ?_, ?_⟩
  · intro key value h0 h1 hno
    obtain ⟨st, hst, hz⟩ := setParse_no_word_ok c clock hno
    refine ⟨st.isNX, st.isXX, ?_⟩
    rw [setCommand_of_parse_ok E clock c w st key value hst h0 h1, hz]
  · intro key value e nx xx hcall
    obtain ⟨st, hst, he⟩ := setCommand_call_inv E clock c w key value e nx xx hcall
    constructor
    · intro hz
      by_cases hw : ∃ p ∈ c.args.drop 2, isExPx p
      · right
        obtain ⟨i, t, d, h | h⟩ := setParse_word c clock st hst hw
        · obtain ⟨hacc, hexp⟩ := h
          have hed : e = expireEX (clock t) d := he.symm.trans hexp
          exact ⟨i, t, d, hacc, hed, (expireEX_eq_zero_iff (clock t) d).mp (hed.symm.trans hz)⟩
        · exfalso
          obtain ⟨hacc, hexp⟩ := h
          obtain ⟨_, a, _, _, _, hpa, hd⟩ := hacc
          have hr := ParseInt_range a d hpa
          obtain ⟨hms, hn0, hn1⟩ := hclk t
          exact expirePX_ne_zero (clock t) d hms hn0 hn1 hd hr.2
            (hexp.symm.trans (he.trans hz))
      · left
        exact fun p hp hp' => hw ⟨p, hp, hp'⟩
    · intro h
      rcases h with hno | ⟨i, t, d, _, hed, hmul⟩
      · rw [← he]
        exact setParse_no_word c clock st hst hno
      · rw [hed]
        exact (expireEX_eq_zero_iff (clock t) d).mpr hmul
  · intro key value opt a d hargs hopt hpa hd
    have hc : c = ⟨[key, value, opt, a]⟩ := by cases c; simp only at hargs; rw [hargs]
    subst hc
    refine ⟨expireEX (clock 0) d, expireEX_eq (clock 0) d, expireEX_eq_zero_iff (clock 0) d, ?_⟩
    exact setCommand_of_parse_ok E clock _ w _ key value
      (setParse_single_ex clock key value opt a d hopt hpa hd) rfl rfl
  · intro key value opt a d hargs hopt hpa hd
    have hc : c = ⟨[key, value, opt, a]⟩ := by cases c; simp only at hargs; rw [hargs]
    subst hc
    have hr := ParseInt_range a d hpa
    obtain ⟨hms, hn0, hn1⟩ := hclk 0
    have hb := nowMs_bounds (clock 0).unixNano hn0 hn1
    refine ⟨expirePX (clock 0) d, ?_, expirePX_ne_zero (clock 0) d hms hn0 hn1 hd hr.2, ?_⟩
    · rw [expirePX_eq]
      simp only [nowMillis, divInt64]
      apply Int.emod_eq_of_lt <;> omega
    · exact setCommand_of_parse_ok E clock _ w _ key value
        (setParse_single_px clock key value opt a d hopt hpa hd) rfl rfl
  · intro key a d h0 h1 hpa hd
    have hneg : ¬ d < 0 := by omega
    refine ⟨expireEX (clock 0) d, expireEX_eq (clock 0) d, expireEX_eq_zero_iff (clock 0) d, ?_⟩
    simp only [setexCommand, h0, h1, hpa, hneg, if_false, callSet]
    cases (E.Set w.store key a (expireEX (clock 0) d) false false).1 <;> rfl

/-- Witness for C5 (amended): at 2023-11-14 22:13:20 UTC,
`SET k v EX 4611686018427387904` calls `Set` with expiry `1700000000000`: the
product wraps, and the expiry is not `0` because `now_seconds + d` is not a
multiple of `2^61`. -/
theorem C5_zero_expiry_only_by_wrap_witness :
    (setCommand specEngine clock2023
        ⟨[ascii "k", ascii "v", ascii "EX", ascii "4611686018427387904"]⟩ world2023).2.calls =
      [EngineCall.Set (ascii "k") (ascii "v") 1700000000000 false false] ∧
    ((clock2023 0).unix + 4611686018427387904) % 2 ^ 61 ≠ 0 ∧
    ∃ e : Nat, (e : Int) = ((clock2023 0).unix + 4611686018427387904) * 1000 % 2 ^ 64 ∧
      (e = 0 ↔ ((clock2023 0).unix + 4611686018427387904) % 2 ^ 61 = 0) ∧
      setCommand specEngine clock2023
          ⟨[ascii "k", ascii "v", ascii "EX", ascii "4611686018427387904"]⟩ world2023 =
        (if (specEngine.Set world2023.store (ascii "k") (ascii "v") e false false).1 = none
          then replyOK else Outcome.reply Reply.Null,
         { store := (specEngine.Set world2023.store (ascii "k") (ascii "v") e false false).2,
           calls := world2023.calls ++
             [EngineCall.Set (ascii "k") (ascii "v") e false false] }) :=
  ⟨by decide, by decide,
   (C5_zero_expiry_only_by_wrap specEngine clock2023
      ⟨[ascii "k", ascii "v", ascii "EX", ascii "4611686018427387904"]⟩ world2023
      (fun _ =>
        ⟨show (0 : Int) < nowMillis ⟨1700000000, 1700000000123456789⟩ by decide,
         show (0 : Int) ≤ 1700000000123456789 by decide,
         show (1700000000123456789 : Int) < 2 ^ 63 by decide⟩)).2.2.1
      (ascii "k") (ascii "v") (ascii "EX") (ascii "4611686018427387904") 4611686018427387904
      rfl (by decide) (by decide) (by decide)⟩

/-- C6: for every argument vector of even length `k1 v1 ... kn vn`, `msetCommand`
builds a mapping `m` whose keys are exactly `k1..kn`, each bound once, and which
maps every key to the value paired with its last occurrence in the argument
list, and passes it to the engine's `MSet`: the run is one `MSet` call on `m`,
the store is what that call returns, and the reply is `OK` when it succeeds and
its error otherwise. For every argument vector of odd length the reply is the
parameter error, with no engine call and the store untouched. -/
theorem C6_mset_mapping_last_wins {σ : Type} (E : StringEngine σ) (c : Client) (w : World σ) :
    (c.argc % 2 = 0 →
      ∃ m, (∀ k, k ∈ GoMap.keys m ↔ k ∈ (argPairs c.args).map Prod.fst) ∧
        (GoMap.keys m).Nodup ∧
        (∀ k, GoMap.get m k = lastValue (argPairs c.args) k) ∧
        msetCommand E c w =
          (match (E.MSet w.store m).1 with
            | some err => Outcome.reply (Reply.Error err)
            | none => replyOK,
           { store := (E.MSet w.store m).2, calls := w.calls ++ [EngineCall.MSet m] })) ∧
    (c.argc % 2 = 1 → msetCommand E c w = (paramError, w)) := by
  constructor
  · intro heven
    obtain ⟨m, hm, hnd, hget, hkeys⟩ := msetLoop_even c.args heven
    exact ⟨m, hkeys, hnd, hget, msetCommand_even E c w m heven hm⟩
  · intro hodd
    simp [msetCommand, hodd]

/-- Witness for C6: `MSET a 1 b 2 a 3` on an empty store passes the mapping
`a → 3, b → 2` to `MSet`, replies `OK`, and the store then holds `3` under `a`
and `2` under `b`. -/
theorem C6_mset_mapping_last_wins_witness :
    msetCommand specEngine
        ⟨[ascii "a", ascii "1", ascii "b", ascii "2", ascii "a", ascii "3"]⟩ world2023 =
      (replyOK,
       { store := (specEngine.MSet world2023.store
           [(ascii "a", ascii "3"), (ascii "b", ascii "2")]).2,
         calls := [EngineCall.MSet [(ascii "a", ascii "3"), (ascii "b", ascii "2")]] }) ∧
    (msetCommand specEngine
        ⟨[ascii "a", ascii "1", ascii "b", ascii "2", ascii "a", ascii "3"]⟩
        world2023).2.store.find (ascii "a") = some ⟨TypeTag.String, 0, ascii "3"⟩ ∧
    (msetCommand specEngine
        ⟨[ascii "a", ascii "1", ascii "b", ascii "2", ascii "a", ascii "3"]⟩
        world2023).2.store.find (ascii "b") = some ⟨TypeTag.String, 0, ascii "2"⟩ ∧
    ∃ m, (∀ k, k ∈ GoMap.keys m ↔
        k ∈ (argPairs (Client.mk
          [ascii "a", ascii "1", ascii "b", ascii "2", ascii "a", ascii "3"]).args).map
            Prod.fst) ∧
      (GoMap.keys m).Nodup ∧
      (∀ k, GoMap.get m k = lastValue (argPairs (Client.mk
          [ascii "a", ascii "1", ascii "b", ascii "2", ascii "a", ascii "3"]).args) k) ∧
      msetCommand specEngine
          ⟨[ascii "a", ascii "1", ascii "b", ascii "2", ascii "a", ascii "3"]⟩ world2023 =
        (match (specEngine.MSet world2023.store m).1 with
          | some err => Outcome.reply (Reply.Error err)
          | none => replyOK,
         { store := (specEngine.MSet world2023.store m).2,
           calls := world2023.calls ++ [EngineCall.MSet m] }) :=
  ⟨rfl, by decide, by decide,
   (C6_mset_mapping_last_wins specEngine
      ⟨[ascii "a", ascii "1", ascii "b", ascii "2", ascii "a", ascii "3"]⟩ world2023).1
      (by decide)⟩

/-- C8 (amended): for every delta that parses as a signed 64-bit integer,
`DECRBY key delta` invokes the engine's `Incr` once with step `−delta` reduced
to the signed 64-bit range, which is the exact `−delta` for every delta other
than `−2^63` and is `−2^63` itself for `delta = −2^63`; `INCRBY key delta`
invokes it with step `delta`, `INCR key` with step `1` and `DECR key` with step
`−1`. In each case the run is that single `Incr` call on the key, the store is
what the call returns, and the reply is the new number, or the error of `Incr`. -/
theorem C8_decrby_step_negated {σ : Type} (E : StringEngine σ) (c : Client) (w : World σ) :
    (∀ key, c.args[0]? = some key →
      incrCommand E c w =
        (match (E.Incr w.store key 1).1 with
          | Except.error err => Outcome.reply (Reply.Error err)
          | Except.ok num => Outcome.reply (Reply.Integer (wrapInt64 num)),
         { store := (E.Incr w.store key 1).2,
           calls := w.calls ++ [EngineCall.Incr key 1] }) ∧
      decrCommand E c w =
        (match (E.Incr w.store key (-1)).1 with
          | Except.error err => Outcome.reply (Reply.Error err)
          | Except.ok num => Outcome.reply (Reply.Integer (wrapInt64 num)),
         { store := (E.Incr w.store key (-1)).2,
           calls := w.calls ++ [EngineCall.Incr key (-1)] })) ∧
    (∀ key a delta, c.args[0]? = some key → c.args[1]? = some a → ParseInt a = some delta →
      incrbyCommand E c w =
        (match (E.Incr w.store key delta).1 with
          | Except.error err => Outcome.reply (Reply.Error err)
          | Except.ok num => Outcome.reply (Reply.Integer (wrapInt64 num)),
         { store := (E.Incr w.store key delta).2,
           calls := w.calls ++ [EngineCall.Incr key delta] }) ∧
      decrbyCommand E c w =
        (match (E.Incr w.store key (wrapInt64 (-delta))).1 with
          | Except.error err => Outcome.reply (Reply.Error err)
          | Except.ok num => Outcome.reply (Reply.Integer (wrapInt64 num)),
         { store := (E.Incr w.store key (wrapInt64 (-delta))).2,
           calls := w.calls ++ [EngineCall.Incr key (wrapInt64 (-delta))] }) ∧
      (delta ≠ -(2 ^ 63) → wrapInt64 (-delta) = -delta) ∧
      (delta = -(2 ^ 63) → wrapInt64 (-delta) = -(2 ^ 63))) := by
  have hgen : ∀ key step, c.args[0]? = some key → incrGenericCommand E c step w =
      (match (E.Incr w.store key step).1 with
        | Except.error err => Outcome.reply (Reply.Error err)
        | Except.ok num => Outcome.reply (Reply.Integer (wrapInt64 num)),
       { store := (E.Incr w.store key step).2,
         calls := w.calls ++ [EngineCall.Incr key step] }) := by
    intro key step h0
    simp only [incrGenericCommand, h0, callIncr]
    cases (E.Incr w.store key step).1 <;> rfl
  constructor
  · intro key h0
    exact ⟨hgen key 1 h0, hgen key (-1) h0⟩
  · intro key a delta h0 h1 hparse
    have hr := ParseInt_range a delta hparse
    have hmul : delta * -1 = -delta := by omega
    refine ⟨?_, ?_, ?_, ?_⟩
    · simp only [incrbyCommand, h1, hparse]
      exact hgen key delta h0
    · simp only [decrbyCommand, h1, hparse, mulInt64, hmul]
      exact hgen key (wrapInt64 (-delta)) h0
    · intro hne
      unfold wrapInt64
      omega
    · intro heq
      unfold wrapInt64
      omega

/-- Witness for C8 (amended): on an empty store `INCR k` (one argument) invokes
`Incr` with step `1` and replies `1`, and `DECRBY k 5` invokes `Incr` with step
`-5` and replies `-5`. -/
theorem C8_decrby_step_negated_witness :
    (incrCommand specEngine ⟨[ascii "k"]⟩ world2023 =
        (match (specEngine.Incr world2023.store (ascii "k") 1).1 with
          | Except.error err => Outcome.reply (Reply.Error err)
          | Except.ok num => Outcome.reply (Reply.Integer (wrapInt64 num)),
         { store := (specEngine.Incr world2023.store (ascii "k") 1).2,
           calls := world2023.calls ++ [EngineCall.Incr (ascii "k") 1] })) ∧
    (incrCommand specEngine ⟨[ascii "k"]⟩ world2023).1 = Outcome.reply (Reply.Integer 1) ∧
    (decrbyCommand specEngine ⟨[ascii "k", ascii "5"]⟩ world2023 =
        (match (specEngine.Incr world2023.store (ascii "k") (wrapInt64 (-5))).1 with
          | Except.error err => Outcome.reply (Reply.Error err)
          | Except.ok num => Outcome.reply (Reply.Integer (wrapInt64 num)),
         { store := (specEngine.Incr world2023.store (ascii "k") (wrapInt64 (-5))).2,
           calls := world2023.calls ++ [EngineCall.Incr (ascii "k") (wrapInt64 (-5))] })) ∧
    wrapInt64 (-5) = -5 ∧
    (decrbyCommand specEngine ⟨[ascii "k", ascii "5"]⟩ world2023).1 =
      Outcome.reply (Reply.Integer (-5)) :=
  ⟨((C8_decrby_step_negated specEngine ⟨[ascii "k"]⟩ world2023).1 (ascii "k") rfl).1,
   by decide,
   ((C8_decrby_step_negated specEngine ⟨[ascii "k", ascii "5"]⟩ world2023).2
      (ascii "k") (ascii "5") 5 rfl rfl (by decide)).2.1,
   ((C8_decrby_step_negated specEngine ⟨[ascii "k", ascii "5"]⟩ world2023).2
      (ascii "k") (ascii "5") 5 rfl rfl (by decide)).2.2.1 (by decide),
   by decide⟩

/-- C9 (amended): a zero duration is accepted. For every key and value and every
duration text that parses as `0`, `SET key value EX 0` invokes the engine's
`Set` once with expiry `(now_seconds × 1000) mod 2^64` and `SET key value PX 0`
with expiry `now_milliseconds mod 2^64`, NX and XX false; the store is what
`Set` returns and the reply is `OK` when `Set` succeeds and null when it fails,
never the parameter error. `SET key value EX|PX a` replies with the parameter
error exactly when `a` is not an integer or is negative, and any `SET` replies
with the parameter error exactly when some EX/PX word among its options is
followed by an argument that is not an integer or is negative. -/
theorem C9_zero_duration_reaches_engine {σ : Type} (E : StringEngine σ) (clock : Clock)
    (c : Client) (w : World σ) :
    (∀ key value opt a, c.args = [key, value, opt, a] → ParseInt a = some 0 →
      (ToLower opt = ascii "ex" →
        ∃ e : Nat, (e : Int) = (clock 0).unix * 1000 % 2 ^ 64 ∧
          setCommand E clock c w =
            (if (E.Set w.store key value e false false).1 = none then replyOK
              else Outcome.reply Reply.Null,
             { store := (E.Set w.store key value e false false).2,
               calls := w.calls ++ [EngineCall.Set key value e false false] })) ∧
      (ToLower opt = ascii "px" →
        ∃ e : Nat, (e : Int) = nowMillis (clock 0) % 2 ^ 64 ∧
          setCommand E clock c w =
            (if (E.Set w.store key value e false false).1 = none then replyOK
              else Outcome.reply Reply.Null,
             { store := (E.Set w.store key value e false false).2,
               calls := w.calls ++ [EngineCall.Set key value e false false] })) ∧
      (isExPx opt → (setCommand E clock c w).1 ≠ paramError)) ∧
    (∀ key value opt a, c.args = [key, value, opt, a] → isExPx opt →
      ((setCommand E clock c w).1 = paramError ↔ BadDuration a)) ∧
    ((setCommand E clock c w).1 = paramError ↔
      ∃ i opt a, c.args[i + 2]? = some opt ∧ isExPx opt ∧ c.args[i + 3]? = some a ∧
        BadDuration a) := by
  have hgen : (setCommand E clock c w).1 = paramError ↔
      ∃ i opt a, c.args[i + 2]? = some opt ∧ isExPx opt ∧ c.args[i + 3]? = some a ∧
        BadDuration a := by
    constructor
    · intro h
      exact setParse_param_error_inv c clock (setCommand_param_error_inv E clock c w h)
    · intro h
      obtain ⟨i, opt, a, h2, hopt, h3, hbad⟩ := h
      rw [setCommand_of_parse_error E clock c w _ (setParse_bad c clock i opt a h2 hopt h3 hbad)]
  have hone : ∀ key value opt a, c.args = [key, value, opt, a] → isExPx opt →
      ((setCommand E clock c w).1 = paramError ↔ BadDuration a) := by
    intro key value opt a hargs hopt
    rw [hgen]
    constructor
    · intro h
      obtain ⟨i, opt', a', h2, _, h3, hbad⟩ := h
      rw [hargs] at h2 h3
      match i with
      | 0 =>
        simp only [List.getElem?_cons_succ, List.getElem?_cons_zero, Option.some.injEq] at h3
        rw [h3]
        exact hbad
      | n + 1 =>
        simp at h3
    · intro hbad
      exact ⟨0, opt, a, by rw [hargs]; rfl, hopt, by rw [hargs]; rfl, hbad⟩
  refine ⟨?_, hone, hgen⟩
  intro key value opt a hargs hpa
  have hc : c = ⟨[key, value, opt, a]⟩ := by cases c; simp only at hargs; rw [hargs]
  refine ⟨?_, ?_, ?_⟩
  · intro hopt
    subst hc
    refine ⟨expireEX (clock 0) 0, by rw [expireEX_eq, add_zero], ?_⟩
    exact setCommand_of_parse_ok E clock _ w _ key value
      (setParse_single_ex clock key value opt a 0 hopt hpa (le_refl 0)) rfl rfl
  · intro hopt
    subst hc
    refine ⟨expirePX (clock 0) 0, by rw [expirePX_eq, add_zero]; rfl, ?_⟩
    exact setCommand_of_parse_ok E clock _ w _ key value
      (setParse_single_px clock key value opt a 0 hopt hpa (le_refl 0)) rfl rfl
  · intro hopt hpe
    have hbad := (hone key value opt a hargs hopt).mp hpe
    rcases hbad with hb | ⟨d, hb, hd⟩
    · rw [hpa] at hb
      simp at hb
    · rw [hpa] at hb
      simp only [Option.some.injEq] at hb
      omega

/-- Witness for C9 (amended): at 2023-11-14 22:13:20 UTC, `SET k v EX 0` on an
empty store calls `Set` with expiry `1700000000000` and replies `OK`. -/
theorem C9_zero_duration_reaches_engine_witness :
    (setCommand specEngine clock2023 ⟨[ascii "k", ascii "v", ascii "EX", ascii "0"]⟩ world2023 =
      (replyOK,
       { store := (specEngine.Set world2023.store (ascii "k") (ascii "v") 1700000000000
           false false).2,
         calls := [EngineCall.Set (ascii "k") (ascii "v") 1700000000000 false false] })) ∧
    (((1700000000000 : Nat) : Int) = (clock2023 0).unix * 1000 % 2 ^ 64) ∧
    ∃ e : Nat, (e : Int) = (clock2023 0).unix * 1000 % 2 ^ 64 ∧
      setCommand specEngine clock2023 ⟨[ascii "k", ascii "v", ascii "EX", ascii "0"]⟩ world2023 =
        (if (specEngine.Set world2023.store (ascii "k") (ascii "v") e false false).1 = none
          then replyOK else Outcome.reply Reply.Null,
         { store := (specEngine.Set world2023.store (ascii "k") (ascii "v") e false false).2,
           calls := world2023.calls ++
             [EngineCall.Set (ascii "k") (ascii "v") e false false] }) :=
  ⟨rfl, by decide,
   ((C9_zero_duration_reaches_engine specEngine clock2023
      ⟨[ascii "k", ascii "v", ascii "EX", ascii "0"]⟩ world2023).1
      (ascii "k") (ascii "v") (ascii "EX") (ascii "0") rfl (by decide)).1 (by decide)⟩

end Titea
